import Mathlib

/-!
Verification development for `pixplot_network_export.py`.

The script under study converts a precomputed low-dimensional point
embedding of an image collection into a weighted nearest-neighbor graph
with two tabular outputs (an edge table and a node table).  We give a
shallow embedding of its core functions:

* `find_nearest_neighbors` — the Python function of the same name: it
  builds the all-pairs Euclidean distance matrix with
  `scipy.spatial.distance.cdist`, argsorts every row with `np.argsort`,
  and keeps the slice `closest_indices[1:n_neighbors+1]`.
* `extract_network_data` — the in-memory core of the Python function of
  the same name (after the file-loading collaborators have produced the
  position array and the filename list): length-mismatch truncation,
  neighbor search, and assembly of one edge record per
  (point, ranked neighbor) pair.
* `write_csv` / `create_node_csv` — the column-header computation and
  the node-deduplication / metadata-merge logic.

Modelling conventions:

* Floating-point coordinates are idealized as elements of an arbitrary
  linearly ordered commutative ring `α` (this covers `ℚ` and `ℝ`;
  concrete evaluations instantiate `α := ℤ` so that the kernel can
  compute).  Exact arithmetic is the standard idealization of IEEE
  floats for this kind of order-theoretic code.
* Sorting by Euclidean distance is modelled as sorting by the *squared*
  Euclidean distance `sqDist`: `Real.sqrt` is strictly monotone on
  nonnegative reals, so both keys induce exactly the same order and the
  same ties.  An edge record therefore stores `dist2`, the square of
  the Python `distance` field; the real-valued `distance` and `weight`
  fields of the Python dict are recovered by the interpretation
  functions `Edge.distance` and `Edge.weight` (parametrized by the
  order-preserving interpretation `toR : α → ℝ` of coordinates).
* the code argsorts each row with `np.argsort` and its default
  `kind='quicksort'` (introsort).  NumPy documents this sort as *not*
  stable: the relative order of tied entries is unspecified (only
  `kind='stable'`/`'mergesort'` guarantee it), although on rows below
  the small-array cutoff (16 elements) the implementation falls back
  to insertion sort and does break ties by lower index.  `argsortRow`
  refines the unspecified tie order to the stable lower-index-first
  order.  The theorems below either do not depend on the tie order at
  all (they hold for any argsort of the row by ascending distance), or
  evaluate rows of fewer than 16 entries, where the refinement agrees
  with the implementation; `c1_all_candidates_tie_at_failing_input`
  exhibits a row on which the program's ranking is decided entirely by
  the undocumented tie behaviour.
* Python's tuple unpacking `pos_x, pos_y = positions[i]` succeeds
  exactly when row `i` has exactly two entries; since the edge-assembly
  loop visits every (truncated) row, the run succeeds exactly when
  every truncated position row has length 2.  `extract_network_data`
  therefore returns an `Option`, with `none` playing the role of the
  uncaught `ValueError`.
* `n_neighbors` is an `ℤ`, and the slice `[1:n_neighbors+1]` is
  modelled by `pySlice`, a faithful rendering of Python slice
  semantics for step 1 (negative bounds count from the end, bounds are
  clamped).
-/

/-- Characters of a path after its last slash (empty if the path ends in
a slash), computed by a left fold that restarts at every `/`. -/
def basenameChars (l : List Char) : List Char :=
  l.foldl (fun acc c => if c = '/' then [] else acc ++ [c]) []

/-- Python's `os.path.basename`: the part of the path after the last
slash (empty if the path ends in a slash).  Implemented on the
character list so that the kernel can evaluate it. -/
def basename (s : String) : String := String.mk (basenameChars s.data)

/-- First-occurrence deduplication of a list of identifiers, rendering
the Python-dict insertion order of `create_node_csv`: a string is kept
at the position of its first occurrence. -/
def firstDedup (l : List String) : List String :=
  l.foldl (fun seen s => if s ∈ seen then seen else seen ++ [s]) []

/-- Python string comparison on a pair of character lists: lexicographic
by Unicode code point.  (We do not use Lean's `String` order because its
`Decidable` instance does not reduce in the kernel.) -/
def chLe : List Char → List Char → Bool
  | [], _ => true
  | _ :: _, [] => false
  | a :: as, b :: bs =>
    if a.toNat < b.toNat then true
    else if b.toNat < a.toNat then false
    else chLe as bs

/-- Python's `<=` on strings: lexicographic by code point.  This is the
comparison used by Python's `sorted` on column names. -/
def strLe (s t : String) : Prop := chLe s.data t.data = true

instance : DecidableRel strLe := fun s t => by unfold strLe; infer_instance

/-- Python's `sorted` on a list of strings. -/
def sortStr (l : List String) : List String := List.insertionSort strLe l

section Pipeline

variable {α : Type} [LinearOrderedCommRing α]

/-- Squared Euclidean distance between two coordinate vectors: the sum
of the squared componentwise differences.  `scipy`'s
`distance.euclidean` and `distance.cdist(..., 'euclidean')` compute the
square root of this quantity; we store the square (see the header
comment). -/
def sqDist (p q : List α) : α :=
  (List.zipWith (fun a b => (a - b) * (a - b)) p q).sum

/-- Row `i` of the distance matrix `distance.cdist(positions, positions,
'euclidean')`, as a function of the column index, up to the monotone
`Real.sqrt` (we return the squared distance). -/
def distRow (positions : List (List α)) (i : ℕ) : ℕ → α :=
  fun j => sqDist (positions.getD i []) (positions.getD j [])

/-- The sort key realizing a stable argsort: index `a` precedes index
`b` when its key is smaller, or the keys tie and `a` is the lower
original index. -/
def rLex (d : ℕ → α) (a b : ℕ) : Prop :=
  d a < d b ∨ (d a = d b ∧ a ≤ b)

instance (d : ℕ → α) : DecidableRel (rLex d) := fun a b => by
  unfold rLex; infer_instance

/-- `np.argsort` of the length-`n` row with entries `d 0, …, d (n-1)`:
the indices `0, …, n-1` sorted by ascending entry.  The code uses the
default `kind='quicksort'`, whose order among tied entries NumPy leaves
unspecified (it is not a stable sort); this model refines the tie order
to lower-original-index-first, which agrees with NumPy's insertion-sort
fallback on rows of fewer than 16 entries.  See the header note on
which results depend on this refinement. -/
def argsortRow (d : ℕ → α) (n : ℕ) : List ℕ :=
  List.insertionSort (rLex d) (List.range n)

end Pipeline

/-- Normalization of a Python slice bound for a list of length `n`
(step 1): a negative bound counts from the end, and the result is
clamped to `[0, n]`. -/
def pyIdx (n : ℕ) (i : ℤ) : ℕ :=
  min (if i < 0 then i + n else i).toNat n

/-- Python's `l[start:stop]` (step 1). -/
def pySlice {β : Type} (l : List β) (start stop : ℤ) : List β :=
  (l.take (pyIdx l.length stop)).drop (pyIdx l.length start)

section Pipeline2

variable {α : Type} [LinearOrderedCommRing α]

/-- The Python function `find_nearest_neighbors(positions, n_neighbors)`:
for each point `i`, argsort row `i` of the pairwise distance matrix and
keep the slice `closest_indices[1:n_neighbors+1]`. -/
def find_nearest_neighbors (positions : List (List α)) (n_neighbors : ℤ) :
    List (List ℕ) :=
  (List.range positions.length).map
    (fun i =>
      pySlice (argsortRow (distRow positions i) positions.length)
        1 (n_neighbors + 1))

/-- One edge row of the Python `network_data` list: the dict built in the
inner loop of `extract_network_data`.  `dist2` is the square of the
`distance` field (see header comment); all the other fields are carried
verbatim.  The dict-literal key order of the source is recorded in
`edgeKeys`. -/
structure Edge (α : Type) where
  source : String
  target : String
  dist2 : α
  rank : ℕ
  source_x : α
  source_y : α
  target_x : α
  target_y : α
deriving DecidableEq, Repr

/-- The edge rows emitted for point `i` (one inner loop of
`extract_network_data`): for the `j`-th neighbor `nb` of `i`, an edge
from `basename image_filenames[i]` to `basename image_filenames[nb]`
with rank `j+1`, the recomputed point-to-point distance (squared), and
both endpoints' coordinates copied on. -/
def edgesForPoint (positions : List (List α)) (image_filenames : List String)
    (i : ℕ) (nbrs : List ℕ) : List (Edge α) :=
  nbrs.enum.map (fun jn =>
    { source := basename (image_filenames.getD i "")
      target := basename (image_filenames.getD jn.2 "")
      dist2 := sqDist (positions.getD i []) (positions.getD jn.2 [])
      rank := jn.1 + 1
      source_x := (positions.getD i []).getD 0 0
      source_y := (positions.getD i []).getD 1 0
      target_x := (positions.getD jn.2 []).getD 0 0
      target_y := (positions.getD jn.2 []).getD 1 0 })

/-- The length-mismatch recovery of `extract_network_data`: when the
position count and filename count disagree, both are truncated to the
common prefix length `min`. -/
def truncPositions (positions : List (List α)) (image_filenames : List String) :
    List (List α) :=
  if positions.length ≠ image_filenames.length
  then positions.take (min positions.length image_filenames.length)
  else positions

/-- Companion of `truncPositions` for the filename list. -/
def truncFilenames (positions : List (List α)) (image_filenames : List String) :
    List String :=
  if positions.length ≠ image_filenames.length
  then image_filenames.take (min positions.length image_filenames.length)
  else image_filenames

/-- The in-memory core of the Python `extract_network_data` (after the
loading collaborators have produced `positions` and `image_filenames`):
truncate on length mismatch, find the nearest neighbors, and emit one
edge per (point, ranked neighbor) pair.  The result is `none` exactly
when the unpacking `pos_x, pos_y = positions[i]` would raise, i.e. when
some truncated position row does not have exactly two coordinates. -/
def extract_network_data (positions : List (List α))
    (image_filenames : List String) (n_neighbors : ℤ) :
    Option (List (Edge α)) :=
  let ps := truncPositions positions image_filenames
  let fs := truncFilenames positions image_filenames
  if ∀ p ∈ ps, p.length = 2 then
    let nbrs := find_nearest_neighbors ps n_neighbors
    some ((List.range fs.length).flatMap
      (fun i => edgesForPoint ps fs i (nbrs.getD i [])))
  else none

/-- The `essential_cols` list of `write_csv`. -/
def essentialCols : List String :=
  ["source", "target", "weight", "distance", "rank"]

/-- The keys of every edge dict, in dict-literal insertion order
(`source, target, weight, distance, rank, source_x, source_y, target_x,
target_y`). -/
def edgeKeys : List String :=
  ["source", "target", "weight", "distance", "rank",
   "source_x", "source_y", "target_x", "target_y"]

/-- The Python `write_csv`, restricted to what it computes in memory:
`False` (here `none`) on empty data and otherwise the header row, namely
the essential columns followed by the remaining column names in sorted
order (`fieldnames` is the union of the key sets of all rows; every edge
dict has exactly the keys `edgeKeys`). -/
def write_csv (network_data : List (Edge α)) : Option (List String) :=
  if network_data.isEmpty then none
  else
    let fieldnames := ((network_data.map (fun _ => edgeKeys)).flatten).dedup
    some (essentialCols ++
      sortStr (fieldnames.filter (fun c => !(essentialCols.contains c))))

/-- A CSV cell value: a string or a number. -/
inductive Value (α : Type)
  | s (v : String)
  | q (v : α)
deriving DecidableEq, Repr

/-- A Python dict row: an association list keyed by column name,
in insertion order. -/
abbrev Row (α : Type) := List (String × Value α)

/-- Python `d[k] = v` on a dict: overwrite in place if the key exists,
otherwise append at the end. -/
def dinsert (d : Row α) (k : String) (v : Value α) : Row α :=
  if d.any (fun kv => kv.1 == k)
  then d.map (fun kv => if kv.1 == k then (k, v) else kv)
  else d ++ [(k, v)]

/-- Python `d.get(k)` on a dict row. -/
def dget (d : Row α) (k : String) : Option (Value α) :=
  (d.find? (fun kv => kv.1 == k)).map (fun kv => kv.2)

/-- The freshly seeded row of a node in `create_node_csv`: the dict
`{id, x, y}`, plus the thumbnail paths when requested. -/
def seedRow (include_thumbs : Bool) (thumbPath origPath : String → String)
    (nid : String) (x y : α) : Row α :=
  [("id", Value.s nid), ("x", Value.q x), ("y", Value.q y)] ++
    (if include_thumbs
     then [("thumb", Value.s (thumbPath nid)),
           ("original", Value.s (origPath nid))]
     else [])

/-- Seeding a node in `create_node_csv`: if `nid` is not yet a key of
`nodes`, add the record `{id, x, y}` (plus thumbnail paths when
requested); a later occurrence of the same identifier is ignored. -/
def addNode (include_thumbs : Bool) (thumbPath origPath : String → String)
    (nodes : List (String × Row α)) (nid : String) (x y : α) :
    List (String × Row α) :=
  if nodes.any (fun n => n.1 == nid) then nodes
  else nodes ++ [(nid, seedRow include_thumbs thumbPath origPath nid x y)]

/-- The first loop of `create_node_csv`: scan the edges in order and, in
each edge, the source before the target, seeding unseen identifiers.
The thumbnail/original path resolvers of the script (filesystem probing
in `get_thumbnail_path` / `get_original_path`) are injected as the
functions `th`, `og`. -/
def collectNodes (include_thumbs : Bool) (th og : String → String)
    (edges : List (Edge α)) : List (String × Row α) :=
  edges.foldl
    (fun acc e =>
      addNode include_thumbs th og
        (addNode include_thumbs th og acc e.source e.source_x e.source_y)
        e.target e.target_x e.target_y)
    []

/-- The metadata-merge loop of `create_node_csv`: when metadata exists
for a node id, write each of its key/value pairs onto the node row,
skipping the key literally named `filename`. -/
def mergeMeta (metadata : List (String × Row α)) (node : String × Row α) :
    String × Row α :=
  match metadata.find? (fun kv => kv.1 == node.1) with
  | none => node
  | some kv =>
    (node.1,
     kv.2.foldl (fun d m => if m.1 == "filename" then d else dinsert d m.1 m.2)
       node.2)

/-- The Python `create_node_csv`, restricted to what it computes in
memory: `False` (here `none`) on empty edge data, otherwise the header
row (`id` first, the remaining column names sorted) together with the
node rows in first-occurrence order. -/
def create_node_csv (edges : List (Edge α)) (metadata : List (String × Row α))
    (include_thumbs : Bool) (th og : String → String) :
    Option (List String × List (Row α)) :=
  if edges.isEmpty then none
  else
    let nodes := (collectNodes include_thumbs th og edges).map (mergeMeta metadata)
    let fieldnames := ((nodes.map (fun n => n.2.map Prod.fst)).flatten).dedup
    some ("id" :: sortStr (fieldnames.filter (fun c => !(c == "id"))),
      nodes.map (fun n => n.2))

/-- The coordinates attached to the first occurrence of identifier `nid`
when scanning the edges in emission order, source before target.  (This
renders the spec's phrase "first occurrence wins for position"; it is
the reference point for the node-seeding theorems.) -/
def firstCoords : List (Edge α) → String → Option (α × α)
  | [], _ => none
  | e :: rest, nid =>
    if e.source = nid then some (e.source_x, e.source_y)
    else if e.target = nid then some (e.target_x, e.target_y)
    else firstCoords rest nid

/-- Lookup by key in a keyed association list (the Python dict `nodes`
of `create_node_csv`, keyed by node id). -/
def alookup (l : List (String × Row α)) (nid : String) : Option (Row α) :=
  (l.find? (fun n => n.1 == nid)).map (fun n => n.2)

/-- The `distance` field of an edge dict: the Euclidean distance, i.e.
the square root of the stored squared distance, read in `ℝ` through the
coordinate interpretation `toR`. -/
noncomputable def Edge.distance (toR : α → ℝ) (e : Edge α) : ℝ :=
  Real.sqrt (toR e.dist2)

/-- The `weight` field of an edge dict: `1.0 / (distance_val + 1e-5)`. -/
noncomputable def Edge.weight (toR : α → ℝ) (e : Edge α) : ℝ :=
  1 / (Edge.distance toR e + 1e-5)

end Pipeline2

/-! ### Order facts for the two comparison relations -/

lemma chLe_total : ∀ a b : List Char, chLe a b = true ∨ chLe b a = true
  | [], _ => Or.inl rfl
  | _ :: _, [] => Or.inr rfl
  | a :: as, b :: bs => by
    rcases Nat.lt_trichotomy a.toNat b.toNat with h | h | h
    · left; simp [chLe, h]
    · rcases chLe_total as bs with ih | ih
      · left; simp [chLe, h, ih]
      · right; simp [chLe, h.symm, ih]
    · right; simp [chLe, h]

lemma chLe_trans : ∀ a b c : List Char,
    chLe a b = true → chLe b c = true → chLe a c = true
  | [], _, _, _, _ => rfl
  | _ :: _, [], _, h, _ => by simp [chLe] at h
  | _ :: _, _ :: _, [], _, h => by simp [chLe] at h
  | a :: as, b :: bs, c :: cs, h1, h2 => by
    simp only [chLe] at h1 h2 ⊢
    split_ifs at h1 h2 ⊢ with hab hba hbc hcb hac hca
    all_goals first
      | rfl
      | omega
      | (exact chLe_trans as bs cs h1 h2)

instance : IsTotal String strLe := ⟨fun a b => chLe_total a.data b.data⟩

instance : IsTrans String strLe :=
  ⟨fun a b c h1 h2 => chLe_trans a.data b.data c.data h1 h2⟩

section RLexFacts

variable {α : Type} [LinearOrderedCommRing α]

instance (d : ℕ → α) : IsTotal ℕ (rLex d) := by
  constructor
  intro a b
  rcases lt_trichotomy (d a) (d b) with h | h | h
  · exact Or.inl (Or.inl h)
  · rcases le_total a b with hab | hab
    · exact Or.inl (Or.inr ⟨h, hab⟩)
    · exact Or.inr (Or.inr ⟨h.symm, hab⟩)
  · exact Or.inr (Or.inl h)

instance (d : ℕ → α) : IsTrans ℕ (rLex d) := by
  constructor
  rintro a b c (h1 | ⟨h1, h1'⟩) (h2 | ⟨h2, h2'⟩)
  · exact Or.inl (h1.trans h2)
  · exact Or.inl (h2 ▸ h1)
  · exact Or.inl (h1 ▸ h2)
  · exact Or.inr ⟨h1.trans h2, h1'.trans h2'⟩

/-! ### Properties of the stable argsort -/

lemma argsortRow_perm (d : ℕ → α) (n : ℕ) :
    (argsortRow d n).Perm (List.range n) :=
  List.perm_insertionSort _ _

lemma argsortRow_sorted (d : ℕ → α) (n : ℕ) :
    List.Sorted (rLex d) (argsortRow d n) :=
  List.sorted_insertionSort _ _

lemma argsortRow_length (d : ℕ → α) (n : ℕ) :
    (argsortRow d n).length = n := by
  simpa using (argsortRow_perm d n).length_eq

lemma argsortRow_nodup (d : ℕ → α) (n : ℕ) :
    (argsortRow d n).Nodup :=
  ((argsortRow_perm d n).symm.nodup (List.nodup_range n))

lemma mem_argsortRow {d : ℕ → α} {n j : ℕ} :
    j ∈ argsortRow d n ↔ j < n := by
  rw [(argsortRow_perm d n).mem_iff, List.mem_range]

/-- The head of the stable argsort is the strict minimum when there is
one: if `d i` is strictly below every other entry, the sorted index
list starts with `i`. -/
lemma argsortRow_head_of_strict_min {d : ℕ → α} {n i : ℕ} (hi : i < n)
    (hmin : ∀ j, j < n → j ≠ i → d i < d j) :
    ∃ rest, argsortRow d n = i :: rest ∧ i ∉ rest := by
  have hne : argsortRow d n ≠ [] := by
    intro h
    have := argsortRow_length d n
    rw [h] at this
    simp at this
    omega
  obtain ⟨x, rest, hx⟩ := List.exists_cons_of_ne_nil hne
  have hsorted := argsortRow_sorted d n
  have hnodup := argsortRow_nodup d n
  rw [hx] at hsorted hnodup
  have hxmem : x ∈ argsortRow d n := by rw [hx]; exact List.mem_cons_self _ _
  have hxlt : x < n := mem_argsortRow.1 hxmem
  have himem : i ∈ argsortRow d n := mem_argsortRow.2 hi
  by_cases hxi : x = i
  · subst hxi
    refine ⟨rest, hx, ?_⟩
    intro hmem
    rcases List.sorted_cons.1 hsorted with ⟨-, -⟩
    exact (List.nodup_cons.1 hnodup).1 hmem
  · exfalso
    have hirest : i ∈ rest := by
      rcases List.mem_cons.1 (hx ▸ himem : i ∈ x :: rest) with h | h
      · exact absurd h.symm hxi
      · exact h
    have hrel : rLex d x i := (List.sorted_cons.1 hsorted).1 i hirest
    have hdi : d i < d x := hmin x hxlt hxi
    rcases hrel with h | ⟨h, -⟩
    · exact absurd (h.trans hdi) (lt_irrefl _)
    · rw [h] at hdi; exact absurd hdi (lt_irrefl _)

end RLexFacts

/-! ### Python slice arithmetic -/

lemma pyIdx_le (n : ℕ) (i : ℤ) : pyIdx n i ≤ n := Nat.min_le_right _ _

lemma pySlice_sublist {β : Type} (l : List β) (a b : ℤ) :
    (pySlice l a b).Sublist l :=
  (List.drop_sublist _ _).trans (List.take_sublist _ _)

lemma length_pySlice {β : Type} (l : List β) (a b : ℤ) :
    (pySlice l a b).length = pyIdx l.length b - pyIdx l.length a := by
  unfold pySlice
  rw [List.length_drop, List.length_take]
  have := pyIdx_le l.length b
  omega

lemma pyIdx_one {n : ℕ} (hn : 1 ≤ n) : pyIdx n 1 = 1 := by
  unfold pyIdx
  simp
  omega

lemma pyIdx_of_nonneg {n : ℕ} {i : ℤ} (h : 0 ≤ i) :
    pyIdx n i = min i.toNat n := by
  unfold pyIdx
  rw [if_neg (by omega)]

/-! ### Geometry facts -/

section GeometryFacts

variable {α : Type} [LinearOrderedCommRing α]

lemma sqDist_nonneg (p q : List α) : 0 ≤ sqDist p q := by
  apply List.sum_nonneg
  intro x hx
  rw [List.mem_iff_getElem] at hx
  obtain ⟨n, hn, rfl⟩ := hx
  rw [List.getElem_zipWith]
  exact mul_self_nonneg _

lemma sqDist_self (p : List α) : sqDist p p = 0 := by
  unfold sqDist
  induction p with
  | nil => simp
  | cons a t ih => simp [ih]

lemma sqDist_eq_zero {p q : List α} (hl : p.length = q.length)
    (h : sqDist p q = 0) : p = q := by
  induction p generalizing q with
  | nil =>
    cases q with
    | nil => rfl
    | cons b u => simp at hl
  | cons a t ih =>
    cases q with
    | nil => simp at hl
    | cons b u =>
      unfold sqDist at h
      rw [List.zipWith_cons_cons, List.sum_cons] at h
      have h1 : 0 ≤ (a - b) * (a - b) := mul_self_nonneg _
      have h2 : 0 ≤ sqDist t u := sqDist_nonneg t u
      have hz := (add_eq_zero_iff_of_nonneg h1 h2).1 h
      have hab : a = b := sub_eq_zero.1 (mul_self_eq_zero.1 hz.1)
      have htu : t = u := ih (by simpa using hl) hz.2
      rw [hab, htu]

lemma sqDist_pos_of_ne {p q : List α} (hl : p.length = q.length) (hne : p ≠ q) :
    0 < sqDist p q :=
  lt_of_le_of_ne (sqDist_nonneg p q) (fun h => hne (sqDist_eq_zero hl h.symm))

end GeometryFacts

/-! ### Access lemmas for `find_nearest_neighbors` -/

section FnnFacts

variable {α : Type} [LinearOrderedCommRing α]

lemma length_find_nearest_neighbors (positions : List (List α)) (k : ℤ) :
    (find_nearest_neighbors positions k).length = positions.length := by
  simp [find_nearest_neighbors]

lemma find_nearest_neighbors_getD {positions : List (List α)} {k : ℤ} {i : ℕ}
    (hi : i < positions.length) :
    (find_nearest_neighbors positions k).getD i []
      = pySlice (argsortRow (distRow positions i) positions.length)
          1 (k + 1) := by
  have hlen : i < (find_nearest_neighbors positions k).length := by
    rw [length_find_nearest_neighbors]; exact hi
  rw [List.getD_eq_getElem _ _ hlen]
  simp [find_nearest_neighbors]

lemma find_nearest_neighbors_sorted {positions : List (List α)} {k : ℤ} {i : ℕ}
    (hi : i < positions.length) :
    List.Sorted (rLex (distRow positions i))
      ((find_nearest_neighbors positions k).getD i []) := by
  rw [find_nearest_neighbors_getD hi]
  exact List.Pairwise.sublist (pySlice_sublist _ _ _) (argsortRow_sorted _ _)

lemma find_nearest_neighbors_nodup {positions : List (List α)} {k : ℤ} {i : ℕ}
    (hi : i < positions.length) :
    ((find_nearest_neighbors positions k).getD i []).Nodup := by
  rw [find_nearest_neighbors_getD hi]
  exact (pySlice_sublist _ _ _).nodup (argsortRow_nodup _ _)

lemma mem_neighbors_lt {positions : List (List α)} {k : ℤ} {i j : ℕ}
    (hi : i < positions.length)
    (hj : j ∈ (find_nearest_neighbors positions k).getD i []) :
    j < positions.length := by
  rw [find_nearest_neighbors_getD hi] at hj
  exact mem_argsortRow.1 ((pySlice_sublist _ _ _).subset hj)

lemma length_neighbors {positions : List (List α)} {k : ℤ} {i : ℕ}
    (hi : i < positions.length) :
    ((find_nearest_neighbors positions k).getD i []).length
      = pyIdx positions.length (k + 1) - pyIdx positions.length 1 := by
  rw [find_nearest_neighbors_getD hi, length_pySlice, argsortRow_length]

lemma pySlice_one_cons_sublist {β : Type} (x : β) (l : List β) (b : ℤ) :
    (pySlice (x :: l) 1 b).Sublist l := by
  unfold pySlice
  rw [pyIdx_one (by simp)]
  cases he : pyIdx (x :: l).length b with
  | zero => simp
  | succ e =>
    rw [List.take_succ_cons, List.drop_succ_cons, List.drop_zero]
    exact List.take_sublist e l

/-- Self-exclusion: when point `i` is strictly closer to itself than any
other point is to it, the first entry of the argsort is `i` itself, and
the slice `[1:k+1]` therefore never contains `i`. -/
lemma self_not_mem_neighbors {positions : List (List α)} {k : ℤ} {i : ℕ}
    (hi : i < positions.length)
    (hmin : ∀ j, j < positions.length → j ≠ i →
      distRow positions i i < distRow positions i j) :
    i ∉ (find_nearest_neighbors positions k).getD i [] := by
  rw [find_nearest_neighbors_getD hi]
  obtain ⟨rest, hcons, hni⟩ :=
    argsortRow_head_of_strict_min (d := distRow positions i) hi hmin
  rw [hcons]
  intro hmem
  exact hni ((pySlice_one_cons_sublist _ _ _).subset hmem)

end FnnFacts

/-! ### Structure of `extract_network_data` -/

section ExtractFacts

variable {α : Type} [LinearOrderedCommRing α]

omit [LinearOrderedCommRing α] in
lemma truncPositions_length (positions : List (List α)) (fns : List String) :
    (truncPositions positions fns).length
      = min positions.length fns.length := by
  unfold truncPositions
  split
  · rw [List.length_take]; omega
  · rename_i h; omega

omit [LinearOrderedCommRing α] in
lemma truncFilenames_length (positions : List (List α)) (fns : List String) :
    (truncFilenames positions fns).length
      = min positions.length fns.length := by
  unfold truncFilenames
  split
  · rw [List.length_take]; omega
  · rename_i h; omega

omit [LinearOrderedCommRing α] in
lemma truncPositions_eq_take (positions : List (List α)) (fns : List String) :
    truncPositions positions fns
      = positions.take (min positions.length fns.length) := by
  unfold truncPositions
  split
  · rfl
  · rename_i h
    have h2 : min positions.length fns.length = positions.length := by omega
    rw [h2, List.take_length]

omit [LinearOrderedCommRing α] in
lemma truncFilenames_eq_take (positions : List (List α)) (fns : List String) :
    truncFilenames positions fns
      = fns.take (min positions.length fns.length) := by
  unfold truncFilenames
  split
  · rfl
  · rename_i h
    have h2 : min positions.length fns.length = fns.length := by omega
    rw [h2, List.take_length]

lemma extract_network_data_eq_some {positions : List (List α)}
    {fns : List String} {k : ℤ}
    (h : ∀ p ∈ truncPositions positions fns, p.length = 2) :
    extract_network_data positions fns k
      = some ((List.range (truncFilenames positions fns).length).flatMap
          (fun i => edgesForPoint (truncPositions positions fns)
            (truncFilenames positions fns) i
            ((find_nearest_neighbors (truncPositions positions fns) k).getD
              i []))) := by
  unfold extract_network_data
  rw [if_pos h]

lemma extract_network_data_eq_none {positions : List (List α)}
    {fns : List String} {k : ℤ}
    (h : ¬ ∀ p ∈ truncPositions positions fns, p.length = 2) :
    extract_network_data positions fns k = none := by
  unfold extract_network_data
  rw [if_neg h]

lemma length_edgesForPoint (ps : List (List α)) (fs : List String) (i : ℕ)
    (nbrs : List ℕ) :
    (edgesForPoint ps fs i nbrs).length = nbrs.length := by
  simp [edgesForPoint, List.enum_length]

lemma mem_edgesForPoint_iff {ps : List (List α)} {fs : List String} {i : ℕ}
    {nbrs : List ℕ} {e : Edge α} :
    e ∈ edgesForPoint ps fs i nbrs ↔
      ∃ j < nbrs.length,
        e = { source := basename (fs.getD i "")
              target := basename (fs.getD (nbrs.getD j 0) "")
              dist2 := sqDist (ps.getD i []) (ps.getD (nbrs.getD j 0) [])
              rank := j + 1
              source_x := (ps.getD i []).getD 0 0
              source_y := (ps.getD i []).getD 1 0
              target_x := (ps.getD (nbrs.getD j 0) []).getD 0 0
              target_y := (ps.getD (nbrs.getD j 0) []).getD 1 0 } := by
  unfold edgesForPoint
  rw [List.mem_map]
  constructor
  · rintro ⟨jn, hjn, rfl⟩
    rw [List.mem_iff_getElem] at hjn
    obtain ⟨j, hj, hje⟩ := hjn
    have hjl : j < nbrs.length := by simpa [List.enum_length] using hj
    refine ⟨j, hjl, ?_⟩
    rw [List.getElem_enum] at hje
    rw [← hje, List.getD_eq_getElem _ _ hjl]
  · rintro ⟨j, hj, rfl⟩
    refine ⟨(j, nbrs.getD j 0), ?_, rfl⟩
    rw [List.mem_iff_getElem]
    refine ⟨j, by simpa [List.enum_length] using hj, ?_⟩
    rw [List.getElem_enum, List.getD_eq_getElem _ _ hj]

lemma source_of_mem_edgesForPoint {ps : List (List α)} {fs : List String}
    {i : ℕ} {nbrs : List ℕ} {e : Edge α} (h : e ∈ edgesForPoint ps fs i nbrs) :
    e.source = basename (fs.getD i "") := by
  rcases List.mem_map.1 h with ⟨jn, -, rfl⟩
  rfl

lemma edgesForPoint_map_rank (ps : List (List α)) (fs : List String) (i : ℕ)
    (nbrs : List ℕ) :
    (edgesForPoint ps fs i nbrs).map Edge.rank
      = (List.range nbrs.length).map (fun j => j + 1) := by
  unfold edgesForPoint
  rw [List.map_map]
  rw [show ((Edge.rank (α := α)) ∘
      (fun jn : ℕ × ℕ =>
        ({ source := basename (fs.getD i "")
           target := basename (fs.getD jn.2 "")
           dist2 := sqDist (ps.getD i []) (ps.getD jn.2 [])
           rank := jn.1 + 1
           source_x := (ps.getD i []).getD 0 0
           source_y := (ps.getD i []).getD 1 0
           target_x := (ps.getD jn.2 []).getD 0 0
           target_y := (ps.getD jn.2 []).getD 1 0 } : Edge α)))
      = ((fun j => j + 1) ∘ Prod.fst) from rfl]
  rw [← List.map_map, List.enum_map_fst]

lemma edgesForPoint_map_dist2 (ps : List (List α)) (fs : List String) (i : ℕ)
    (nbrs : List ℕ) :
    (edgesForPoint ps fs i nbrs).map Edge.dist2
      = nbrs.map (distRow ps i) := by
  unfold edgesForPoint
  rw [List.map_map]
  rw [show ((Edge.dist2 (α := α)) ∘
      (fun jn : ℕ × ℕ =>
        ({ source := basename (fs.getD i "")
           target := basename (fs.getD jn.2 "")
           dist2 := sqDist (ps.getD i []) (ps.getD jn.2 [])
           rank := jn.1 + 1
           source_x := (ps.getD i []).getD 0 0
           source_y := (ps.getD i []).getD 1 0
           target_x := (ps.getD jn.2 []).getD 0 0
           target_y := (ps.getD jn.2 []).getD 1 0 } : Edge α)))
      = ((distRow ps i) ∘ Prod.snd) from rfl]
  rw [← List.map_map]
  congr 1
  exact List.enum_map_snd nbrs

end ExtractFacts

/-! ### List helpers for block decomposition -/

lemma filter_flatMap_blocks {β γ : Type} (l : List β) (g : β → List γ)
    (p : γ → Bool) :
    (l.flatMap g).filter p = (l.map (fun b => (g b).filter p)).flatten := by
  induction l with
  | nil => rfl
  | cons a t ih => simp [List.filter_append, ih]

lemma flatten_map_eq_single {β : Type} (g : ℕ → List β) {n i0 : ℕ}
    (h : i0 < n) (hz : ∀ i, i < n → i ≠ i0 → g i = []) :
    ((List.range n).map g).flatten = g i0 := by
  induction n with
  | zero => omega
  | succ m ih =>
    rw [List.range_succ, List.map_append, List.flatten_append]
    by_cases hm : i0 = m
    · subst hm
      have hflat : ((List.range i0).map g).flatten = [] := by
        rw [List.flatten_eq_nil_iff]
        intro l hl
        rcases List.mem_map.1 hl with ⟨i, hi, rfl⟩
        exact hz i (by rw [List.mem_range] at hi; omega)
          (by rw [List.mem_range] at hi; omega)
      rw [hflat]; simp
    · have hi0 : i0 < m := by omega
      rw [ih hi0 (fun i hi hne => hz i (by omega) hne)]
      have hgm : g m = [] := hz m (by omega) (fun hh => hm hh.symm)
      simp [hgm]

/-! ### Claim theorems -/

/-- C1: the spec requires ties at equal distance to be broken by the
lower original index ("stable sort semantics ... required for
reproducibility"), but the code calls `np.argsort` with its default
`kind='quicksort'`, which NumPy documents as not stable: the order it
returns among tied entries is unspecified (only `kind='stable'` would
guarantee the required ranking).  This theorem evaluates the program's
distance computation at a failing input: 20 coincident points, whose
distance row (beyond NumPy's 16-element insertion-sort cutoff) consists
of twenty tied zero entries, so the neighbor ranking the program
returns there is decided entirely by the undocumented tie behaviour of
the unstable sort. -/
theorem c1_all_candidates_tie_at_failing_input :
    (List.range 20).map
        (distRow (List.replicate 20 ([0, 0] : List ℤ)) 0)
      = List.replicate 20 (0 : ℤ) := by decide

/-- C2: for `N ≥ 1` points and requested `k ≥ 1`,
`find_nearest_neighbors` returns exactly `N` neighbor-index lists,
index-aligned with the input, each of length exactly `min k (N-1)`. -/
theorem c2_neighbor_count {α : Type} [LinearOrderedCommRing α]
    (positions : List (List α)) (k : ℤ)
    (hN : 1 ≤ positions.length) (hk : 1 ≤ k) :
    (find_nearest_neighbors positions k).length = positions.length ∧
      ∀ l ∈ find_nearest_neighbors positions k,
        l.length = min k.toNat (positions.length - 1) := by
  refine ⟨length_find_nearest_neighbors positions k, ?_⟩
  intro l hl
  rw [List.mem_iff_getElem] at hl
  obtain ⟨i, hi, rfl⟩ := hl
  have hip : i < positions.length := by
    rwa [length_find_nearest_neighbors] at hi
  rw [← List.getD_eq_getElem _ [] hi, length_neighbors hip,
    pyIdx_one hN, pyIdx_of_nonneg (by omega : (0:ℤ) ≤ k + 1)]
  omega

/-- Closed witness for `c2_neighbor_count` on the 4-point example with
`k = 2`. -/
theorem c2_neighbor_count_witness :
    (find_nearest_neighbors ([[0,0],[1,0],[0,1],[5,5]] : List (List ℤ))
        2).length = ([[0,0],[1,0],[0,1],[5,5]] : List (List ℤ)).length ∧
      ∀ l ∈ find_nearest_neighbors ([[0,0],[1,0],[0,1],[5,5]] : List (List ℤ)) 2,
        l.length
          = min (2:ℤ).toNat (([[0,0],[1,0],[0,1],[5,5]] : List (List ℤ)).length - 1) :=
  c2_neighbor_count [[0,0],[1,0],[0,1],[5,5]] 2 (by decide) (by decide)

/-- Helper for the degenerate neighbor counts: when the normalized stop
bound of the slice `[1:k+1]` never exceeds the normalized start bound,
every neighbor list is empty. -/
lemma find_nearest_neighbors_eq_replicate_nil {α : Type}
    [LinearOrderedCommRing α] (positions : List (List α)) (k : ℤ)
    (h : ∀ n : ℕ, pyIdx n (k + 1) ≤ pyIdx n 1) :
    find_nearest_neighbors positions k
      = List.replicate positions.length [] := by
  refine List.eq_replicate_iff.2 ⟨length_find_nearest_neighbors _ _, ?_⟩
  intro l hl
  obtain ⟨i, hi, rfl⟩ := List.mem_iff_getElem.1 hl
  have hip : i < positions.length := by
    rwa [length_find_nearest_neighbors] at hi
  apply List.eq_nil_of_length_eq_zero
  rw [← List.getD_eq_getElem _ [] hi, length_neighbors hip]
  have := h positions.length
  omega

lemma getD_replicate_nil {n i : ℕ} :
    (List.replicate n ([] : List ℕ)).getD i [] = ([] : List ℕ) := by
  rcases lt_or_ge i n with h | h
  · rw [List.getD_eq_getElem _ _ (by simpa using h), List.getElem_replicate]
  · rw [List.getD_eq_default]; simpa using h

/-- C10: non-positive neighbor counts are not validated and follow
Python slice semantics.  `k = 0` and `k = -1` give every point an empty
neighbor list (the slices `[1:1]` and `[1:0]`), hence zero edges and a
`False` return from `write_csv`; but `k = -2` gives the slice `[1:-1]`,
i.e. lists of length `N - 2`, so negative counts are neither rejected
nor uniformly empty. -/
theorem c10_nonpositive_neighbor_counts :
    (∀ (α : Type) [LinearOrderedCommRing α] (positions : List (List α)),
        find_nearest_neighbors positions 0 = List.replicate positions.length []
          ∧ find_nearest_neighbors positions (-1)
              = List.replicate positions.length [])
    ∧ (∀ (α : Type) [LinearOrderedCommRing α] (positions : List (List α))
          (fns : List String) (k : ℤ), k = 0 ∨ k = -1 →
        (∀ p ∈ truncPositions positions fns, p.length = 2) →
        extract_network_data positions fns k = some [])
    ∧ (∀ (α : Type) [LinearOrderedCommRing α], write_csv (α := α) [] = none)
    ∧ (∀ (α : Type) [LinearOrderedCommRing α] (positions : List (List α)),
        3 ≤ positions.length →
        ∀ l ∈ find_nearest_neighbors positions (-2),
          l.length = positions.length - 2) := by
  have hrep : ∀ (α : Type) [LinearOrderedCommRing α]
      (positions : List (List α)) (k : ℤ), k = 0 ∨ k = -1 →
      find_nearest_neighbors positions k
        = List.replicate positions.length [] := by
    intro α instα positions k hk
    apply find_nearest_neighbors_eq_replicate_nil
    intro n
    rcases hk with rfl | rfl
    · norm_num
    · unfold pyIdx
      rcases Nat.eq_zero_or_pos n with rfl | hn
      · omega
      · rw [if_neg (by omega), if_neg (by omega)]
        omega
  refine ⟨fun α instα positions =>
      ⟨hrep α positions 0 (Or.inl rfl), hrep α positions (-1) (Or.inr rfl)⟩,
    ?_, ?_, ?_⟩
  · intro α instα positions fns k hk h2
    rw [extract_network_data_eq_some h2]
    refine congrArg some ?_
    rw [List.flatMap_eq_nil_iff]
    intro i hi
    rw [hrep α (truncPositions positions fns) k hk, getD_replicate_nil]
    rfl
  · intro α instα
    simp [write_csv]
  · intro α instα positions h3 l hl
    obtain ⟨i, hi, rfl⟩ := List.mem_iff_getElem.1 hl
    have hip : i < positions.length := by
      rwa [length_find_nearest_neighbors] at hi
    rw [← List.getD_eq_getElem _ [] hi, length_neighbors hip,
      pyIdx_one (by omega)]
    unfold pyIdx
    rw [if_pos (by omega)]
    omega

/-- Closed witness for `c10_nonpositive_neighbor_counts`: `k = 0` on a
2-point input gives empty lists, zero edges, and no written file; while
`k = -2` on a 3-point input gives a length-1 neighbor list. -/
theorem c10_nonpositive_neighbor_counts_witness :
    find_nearest_neighbors ([[0,0],[1,0]] : List (List ℤ)) 0
        = List.replicate ([[0,0],[1,0]] : List (List ℤ)).length []
      ∧ extract_network_data ([[0,0],[1,0]] : List (List ℤ)) ["a", "b"] 0
          = some []
      ∧ write_csv (α := ℤ) [] = none
      ∧ ([1] : List ℕ).length = ([[0,0],[1,0],[0,1]] : List (List ℤ)).length - 2 :=
  ⟨(c10_nonpositive_neighbor_counts.1 ℤ [[0,0],[1,0]]).1,
   c10_nonpositive_neighbor_counts.2.1 ℤ [[0,0],[1,0]] ["a", "b"] 0
     (Or.inl rfl) (by decide),
   c10_nonpositive_neighbor_counts.2.2.1 ℤ,
   c10_nonpositive_neighbor_counts.2.2.2 ℤ [[0,0],[1,0],[0,1]]
     (by decide) [1] (by decide)⟩

/-! ### Decomposing a successful extraction -/

section ExtractDecomp

variable {α : Type} [LinearOrderedCommRing α]

lemma cond_of_extract_eq_some {positions : List (List α)} {fns : List String}
    {k : ℤ} {es : List (Edge α)}
    (hex : extract_network_data positions fns k = some es) :
    ∀ p ∈ truncPositions positions fns, p.length = 2 := by
  by_contra h
  rw [extract_network_data_eq_none h] at hex
  exact Option.noConfusion hex

lemma es_of_extract_eq_some {positions : List (List α)} {fns : List String}
    {k : ℤ} {es : List (Edge α)}
    (hex : extract_network_data positions fns k = some es) :
    es = (List.range (truncFilenames positions fns).length).flatMap
      (fun i => edgesForPoint (truncPositions positions fns)
        (truncFilenames positions fns) i
        ((find_nearest_neighbors (truncPositions positions fns) k).getD i [])) := by
  have hcond := cond_of_extract_eq_some hex
  rw [extract_network_data_eq_some hcond] at hex
  exact (Option.some.inj hex).symm

lemma mem_extract_decomp {positions : List (List α)} {fns : List String}
    {k : ℤ} {es : List (Edge α)} {e : Edge α}
    (hex : extract_network_data positions fns k = some es) (he : e ∈ es) :
    ∃ i < (truncFilenames positions fns).length,
      e ∈ edgesForPoint (truncPositions positions fns)
        (truncFilenames positions fns) i
        ((find_nearest_neighbors (truncPositions positions fns) k).getD i []) := by
  rw [es_of_extract_eq_some hex] at he
  rcases List.mem_flatMap.1 he with ⟨i, hi, hei⟩
  exact ⟨i, List.mem_range.1 hi, hei⟩

end ExtractDecomp

/-- C3 counterexample: on the input with two *coincident* points
`(0,0), (0,0)` (filenames `a`, `b`) and `k = 1`, the stable argsort of
row 1 is `[0, 1]` — point 1 is *not* the first entry of its own row,
because index 0 ties at distance 0 and wins the tie — so discarding the
first entry leaves index 1 itself, and the second emitted edge is the
self-loop `b → b`.  This refutes the claim that no self-loop edge exists
for every input including coincident points. -/
theorem c3_self_loop_counterexample :
    ¬ (∀ es : List (Edge ℤ),
        extract_network_data ([[0,0],[0,0]] : List (List ℤ)) ["a", "b"] 1
            = some es →
        ∀ e ∈ es, e.source ≠ e.target) := by
  intro h
  exact h
    [{ source := "a", target := "b", dist2 := 0, rank := 1,
       source_x := 0, source_y := 0, target_x := 0, target_y := 0 },
     { source := "b", target := "b", dist2 := 0, rank := 1,
       source_x := 0, source_y := 0, target_x := 0, target_y := 0 }]
    (by decide)
    { source := "b", target := "b", dist2 := 0, rank := 1,
      source_x := 0, source_y := 0, target_x := 0, target_y := 0 }
    (by decide) rfl

/-- C3 amended: provided the (truncated) points are pairwise distinct --
so that every point is *strictly* closer to itself than any other point,
making it the discarded first argsort entry -- and the (truncated) base
filenames are pairwise distinct -- so that distinct indices yield
distinct identifiers -- every edge record produced by
`extract_network_data` satisfies `source ≠ target`. -/
theorem c3_no_self_loops_amended {α : Type} [LinearOrderedCommRing α]
    (positions : List (List α)) (fns : List String) (k : ℤ)
    (es : List (Edge α))
    (hex : extract_network_data positions fns k = some es)
    (hpos : (truncPositions positions fns).Nodup)
    (hbn : ((truncFilenames positions fns).map basename).Nodup) :
    ∀ e ∈ es, e.source ≠ e.target := by
  intro e he
  have hcond := cond_of_extract_eq_some hex
  obtain ⟨i, hilt, hei⟩ := mem_extract_decomp hex he
  set ps := truncPositions positions fns with hps
  set fs := truncFilenames positions fns with hfs
  have hlen : ps.length = fs.length := by
    rw [hps, hfs, truncPositions_length, truncFilenames_length]
  have hip : i < ps.length := by rw [hlen]; exact hilt
  obtain ⟨j, hj, rfl⟩ := mem_edgesForPoint_iff.1 hei
  set nbrs := (find_nearest_neighbors ps k).getD i [] with hnbrs
  set nb := nbrs.getD j 0 with hnb
  have hnbmem : nb ∈ nbrs := by
    rw [hnb, List.getD_eq_getElem _ _ hj]
    exact List.getElem_mem hj
  have hnblt : nb < ps.length := mem_neighbors_lt hip hnbmem
  have hmin : ∀ j2, j2 < ps.length → j2 ≠ i →
      distRow ps i i < distRow ps i j2 := by
    intro j2 hj2 hne
    have h0 : distRow ps i i = 0 := sqDist_self _
    have hrows : ps.getD i [] ≠ ps.getD j2 [] := by
      rw [List.getD_eq_getElem _ _ hip, List.getD_eq_getElem _ _ hj2]
      intro hcontra
      exact hne ((List.Nodup.getElem_inj_iff hpos).1 hcontra).symm
    have hmemi : ps.getD i [] ∈ ps := by
      rw [List.getD_eq_getElem _ _ hip]; exact List.getElem_mem hip
    have hmemj : ps.getD j2 [] ∈ ps := by
      rw [List.getD_eq_getElem _ _ hj2]; exact List.getElem_mem hj2
    have hlens : (ps.getD i []).length = (ps.getD j2 []).length := by
      rw [hcond _ hmemi, hcond _ hmemj]
    have hpossq := sqDist_pos_of_ne hlens hrows
    rw [h0]
    exact hpossq
  have hnotmem : i ∉ nbrs := self_not_mem_neighbors hip hmin
  have hne_idx : nb ≠ i := fun hh => hnotmem (hh ▸ hnbmem)
  intro hst
  have hst2 : basename (fs.getD i "") = basename (fs.getD nb "") := hst
  have hnbfs : nb < fs.length := by rw [← hlen]; exact hnblt
  rw [List.getD_eq_getElem _ _ hilt, List.getD_eq_getElem _ _ hnbfs] at hst2
  have hi1 : i < (fs.map basename).length := by
    rw [List.length_map]; exact hilt
  have hi2 : nb < (fs.map basename).length := by
    rw [List.length_map]; exact hnbfs
  have : i = nb :=
    (@List.Nodup.getElem_inj_iff _ _ hbn i hi1 nb hi2).1
      (by rw [List.getElem_map, List.getElem_map]; exact hst2)
  exact hne_idx this.symm

/-- Closed witness for `c3_no_self_loops_amended` on two distinct points
with distinct filenames. -/
theorem c3_no_self_loops_amended_witness :
    ({ source := "a", target := "b", dist2 := 1, rank := 1,
       source_x := 0, source_y := 0, target_x := 1, target_y := 0 } :
        Edge ℤ).source
      ≠ ({ source := "a", target := "b", dist2 := 1, rank := 1,
           source_x := 0, source_y := 0, target_x := 1, target_y := 0 } :
          Edge ℤ).target :=
  c3_no_self_loops_amended ([[0,0],[1,0]] : List (List ℤ)) ["a", "b"] 1
    [{ source := "a", target := "b", dist2 := 1, rank := 1,
       source_x := 0, source_y := 0, target_x := 1, target_y := 0 },
     { source := "b", target := "a", dist2 := 1, rank := 1,
       source_x := 1, source_y := 0, target_x := 0, target_y := 0 }]
    (by decide) (by decide) (by decide)
    { source := "a", target := "b", dist2 := 1, rank := 1,
      source_x := 0, source_y := 0, target_x := 1, target_y := 0 }
    (by decide)

lemma range_map_getD {β γ : Type} (l : List β) (d : β) (g : β → γ) :
    (List.range l.length).map (fun i => g (l.getD i d)) = l.map g := by
  apply List.ext_getElem
  · simp
  · intro n h1 h2
    have hn : n < l.length := by simpa using h2
    rw [List.getElem_map, List.getElem_range, List.getElem_map,
      List.getD_eq_getElem _ _ hn]

/-- C9 counterexample: on a 3-dimensional input the pipeline does *not*
succeed: `extract_network_data` fails (the unpacking
`pos_x, pos_y = positions[i]` raises on a length-3 row, modelled as
`none`), refuting the claim that edge assembly works for any
dimensionality `D`. -/
theorem c9_dimension_counterexample :
    extract_network_data ([[0,0,0],[1,0,0]] : List (List ℤ)) ["a", "b"] 1
      = none := by decide

/-- C9 amended: `find_nearest_neighbors` itself is dimension-generic
(it returns one ranked list per point for vectors of any length), but
the edge assembly of `extract_network_data` additionally requires every
(truncated) position to be exactly 2-dimensional; under that condition
it succeeds and emits exactly one edge record per (point, ranked
neighbor) pair. -/
theorem c9_pipeline_dimension :
    (∀ (α : Type) [LinearOrderedCommRing α] (positions : List (List α))
        (k : ℤ),
        (find_nearest_neighbors positions k).length = positions.length)
    ∧ (∀ (α : Type) [LinearOrderedCommRing α] (positions : List (List α))
          (fns : List String) (k : ℤ),
        (∀ p ∈ truncPositions positions fns, p.length = 2) →
        (extract_network_data positions fns k).isSome = true
          ∧ ((extract_network_data positions fns k).getD []).length
              = ((find_nearest_neighbors (truncPositions positions fns) k).map
                  List.length).sum) := by
  refine ⟨fun α instα positions k => length_find_nearest_neighbors positions k,
    ?_⟩
  intro α instα positions fns k h2
  rw [extract_network_data_eq_some h2]
  refine ⟨rfl, ?_⟩
  rw [Option.getD_some, List.length_flatMap]
  have h1 : (List.map (List.length ∘ fun i =>
        edgesForPoint (truncPositions positions fns)
          (truncFilenames positions fns) i
          ((find_nearest_neighbors (truncPositions positions fns) k).getD i []))
        (List.range (truncFilenames positions fns).length))
      = List.map (fun i =>
          ((find_nearest_neighbors (truncPositions positions fns) k).getD
            i []).length)
          (List.range (truncFilenames positions fns).length) := by
    apply List.map_congr_left
    intro i hi
    simp [length_edgesForPoint]
  rw [h1]
  have hlen2 : (truncFilenames positions fns).length
      = (find_nearest_neighbors (truncPositions positions fns) k).length := by
    rw [length_find_nearest_neighbors, truncPositions_length,
      truncFilenames_length]
  rw [hlen2]
  exact congrArg List.sum
    (range_map_getD (find_nearest_neighbors (truncPositions positions fns) k)
      [] List.length)

/-- Closed witness for `c9_pipeline_dimension`: the neighbor finder runs
on a 3-dimensional input, and the full extraction succeeds on a
2-dimensional one with one edge per (point, neighbor) pair. -/
theorem c9_pipeline_dimension_witness :
    (find_nearest_neighbors ([[0,0,0],[1,0,0],[0,3,4]] : List (List ℤ))
        1).length = ([[0,0,0],[1,0,0],[0,3,4]] : List (List ℤ)).length
      ∧ ((extract_network_data ([[0,0],[1,0]] : List (List ℤ)) ["a", "b"]
            1).isSome = true
          ∧ ((extract_network_data ([[0,0],[1,0]] : List (List ℤ)) ["a", "b"]
                1).getD []).length
              = ((find_nearest_neighbors
                  (truncPositions ([[0,0],[1,0]] : List (List ℤ)) ["a", "b"])
                  1).map List.length).sum) :=
  ⟨c9_pipeline_dimension.1 ℤ [[0,0,0],[1,0,0],[0,3,4]] 1,
   c9_pipeline_dimension.2 ℤ [[0,0],[1,0]] ["a", "b"] 1 (by decide)⟩

/-- C6: when the number of positions differs from the number of image
filenames, `extract_network_data` behaves exactly as if run on the
common prefixes of length `min` of both inputs, and (provided the
surviving rows are 2-dimensional) it still succeeds: a length mismatch
is never fatal.  (The accompanying console warning is I/O and is not
modelled.) -/
theorem c6_mismatch_truncates {α : Type} [LinearOrderedCommRing α]
    (positions : List (List α)) (fns : List String) (k : ℤ)
    (_hne : positions.length ≠ fns.length) :
    extract_network_data positions fns k
        = extract_network_data
            (positions.take (min positions.length fns.length))
            (fns.take (min positions.length fns.length)) k
      ∧ ((∀ p ∈ positions.take (min positions.length fns.length),
            p.length = 2) →
          (extract_network_data positions fns k).isSome = true) := by
  have e1 : truncPositions positions fns
      = positions.take (min positions.length fns.length) :=
    truncPositions_eq_take _ _
  have e2 : truncFilenames positions fns
      = fns.take (min positions.length fns.length) :=
    truncFilenames_eq_take _ _
  have e3 : truncPositions
        (positions.take (min positions.length fns.length))
        (fns.take (min positions.length fns.length))
      = positions.take (min positions.length fns.length) := by
    rw [truncPositions_eq_take, List.length_take, List.length_take,
      List.take_take]
    congr 1
    omega
  have e4 : truncFilenames
        (positions.take (min positions.length fns.length))
        (fns.take (min positions.length fns.length))
      = fns.take (min positions.length fns.length) := by
    rw [truncFilenames_eq_take, List.length_take, List.length_take,
      List.take_take]
    congr 1
    omega
  constructor
  · simp only [extract_network_data]
    rw [e1, e2, e3, e4]
  · intro h2
    rw [extract_network_data_eq_some (by rw [e1]; exact h2)]
    rfl

/-- Closed witness for `c6_mismatch_truncates`: 3 positions but only 2
filenames; the run equals the run on the common 2-element prefix and
still succeeds. -/
theorem c6_mismatch_truncates_witness :
    extract_network_data ([[0,0],[1,0],[5,5]] : List (List ℤ)) ["a", "b"] 1
        = extract_network_data
            (([[0,0],[1,0],[5,5]] : List (List ℤ)).take
              (min ([[0,0],[1,0],[5,5]] : List (List ℤ)).length
                ["a", "b"].length))
            (["a", "b"].take
              (min ([[0,0],[1,0],[5,5]] : List (List ℤ)).length
                ["a", "b"].length)) 1
      ∧ (extract_network_data ([[0,0],[1,0],[5,5]] : List (List ℤ))
          ["a", "b"] 1).isSome = true :=
  ⟨(c6_mismatch_truncates ([[0,0],[1,0],[5,5]] : List (List ℤ)) ["a", "b"] 1
      (by decide)).1,
   (c6_mismatch_truncates ([[0,0],[1,0],[5,5]] : List (List ℤ)) ["a", "b"] 1
      (by decide)).2 (by decide)⟩

lemma eq_pair_of_length_two {β : Type} (l : List β) (d : β)
    (h : l.length = 2) : l = [l.getD 0 d, l.getD 1 d] := by
  match l, h with
  | [a, b], _ => rfl

/-- C5: for every edge record emitted by `extract_network_data`, both
endpoints' coordinates are copied onto the record (the recorded pairs
are rows of the truncated position list), the `distance` field is the
Euclidean distance between the recorded source and target coordinates
(its stored square equals `sqDist` of the two coordinate pairs, and the
real-valued field is its square root), the `weight` field equals
`1 / (distance + 1e-5)`, and the weight is strictly positive, including
when the two points coincide at distance 0. -/
theorem c5_edge_fields {α : Type} [LinearOrderedCommRing α]
    (positions : List (List α)) (fns : List String) (k : ℤ)
    (es : List (Edge α)) (toR : α → ℝ)
    (hex : extract_network_data positions fns k = some es) :
    ∀ e ∈ es,
      [e.source_x, e.source_y] ∈ truncPositions positions fns
        ∧ [e.target_x, e.target_y] ∈ truncPositions positions fns
        ∧ e.dist2 = sqDist [e.source_x, e.source_y] [e.target_x, e.target_y]
        ∧ Edge.distance toR e
            = Real.sqrt
                (toR (sqDist [e.source_x, e.source_y]
                  [e.target_x, e.target_y]))
        ∧ Edge.weight toR e = 1 / (Edge.distance toR e + 1e-5)
        ∧ 0 < Edge.weight toR e := by
  intro e he
  have hcond := cond_of_extract_eq_some hex
  obtain ⟨i, hilt, hei⟩ := mem_extract_decomp hex he
  set ps := truncPositions positions fns with hps
  set fs := truncFilenames positions fns with hfs
  have hlen : ps.length = fs.length := by
    rw [hps, hfs, truncPositions_length, truncFilenames_length]
  have hip : i < ps.length := by rw [hlen]; exact hilt
  obtain ⟨j, hj, rfl⟩ := mem_edgesForPoint_iff.1 hei
  set nbrs := (find_nearest_neighbors ps k).getD i [] with hnbrs
  set nb := nbrs.getD j 0 with hnb
  have hnbmem : nb ∈ nbrs := by
    rw [hnb, List.getD_eq_getElem _ _ hj]
    exact List.getElem_mem hj
  have hnblt : nb < ps.length := mem_neighbors_lt hip hnbmem
  have hmemi : ps.getD i [] ∈ ps := by
    rw [List.getD_eq_getElem _ _ hip]; exact List.getElem_mem hip
  have hmemnb : ps.getD nb [] ∈ ps := by
    rw [List.getD_eq_getElem _ _ hnblt]; exact List.getElem_mem hnblt
  have hpi : ps.getD i []
      = [(ps.getD i []).getD 0 0, (ps.getD i []).getD 1 0] :=
    eq_pair_of_length_two _ _ (hcond _ hmemi)
  have hpnb : ps.getD nb []
      = [(ps.getD nb []).getD 0 0, (ps.getD nb []).getD 1 0] :=
    eq_pair_of_length_two _ _ (hcond _ hmemnb)
  refine ⟨?_, ?_, ?_, ?_, rfl, ?_⟩
  · show [(ps.getD i []).getD 0 0, (ps.getD i []).getD 1 0] ∈ ps
    rw [← hpi]; exact hmemi
  · show [(ps.getD nb []).getD 0 0, (ps.getD nb []).getD 1 0] ∈ ps
    rw [← hpnb]; exact hmemnb
  · show sqDist (ps.getD i []) (ps.getD nb [])
      = sqDist [(ps.getD i []).getD 0 0, (ps.getD i []).getD 1 0]
          [(ps.getD nb []).getD 0 0, (ps.getD nb []).getD 1 0]
    rw [← hpi, ← hpnb]
  · show Real.sqrt (toR (sqDist (ps.getD i []) (ps.getD nb [])))
      = Real.sqrt
          (toR (sqDist [(ps.getD i []).getD 0 0, (ps.getD i []).getD 1 0]
            [(ps.getD nb []).getD 0 0, (ps.getD nb []).getD 1 0]))
    rw [← hpi, ← hpnb]
  · unfold Edge.weight Edge.distance
    apply one_div_pos.2
    positivity

/-- Closed witness for `c5_edge_fields` at the first edge of the
two-point run `(0,0), (1,0)` with `k = 1`, interpreting the integer
coordinates in `ℝ`. -/
theorem c5_edge_fields_witness :
    (let e : Edge ℤ :=
      { source := "a", target := "b", dist2 := 1, rank := 1,
        source_x := 0, source_y := 0, target_x := 1, target_y := 0 }
     [e.source_x, e.source_y]
        ∈ truncPositions ([[0,0],[1,0]] : List (List ℤ)) ["a", "b"]
      ∧ [e.target_x, e.target_y]
          ∈ truncPositions ([[0,0],[1,0]] : List (List ℤ)) ["a", "b"]
      ∧ e.dist2 = sqDist [e.source_x, e.source_y] [e.target_x, e.target_y]
      ∧ Edge.distance (fun z : ℤ => (z : ℝ)) e
          = Real.sqrt
              ((fun z : ℤ => (z : ℝ))
                (sqDist [e.source_x, e.source_y] [e.target_x, e.target_y]))
      ∧ Edge.weight (fun z : ℤ => (z : ℝ)) e
          = 1 / (Edge.distance (fun z : ℤ => (z : ℝ)) e + 1e-5)
      ∧ 0 < Edge.weight (fun z : ℤ => (z : ℝ)) e) :=
  c5_edge_fields ([[0,0],[1,0]] : List (List ℤ)) ["a", "b"] 1
    [{ source := "a", target := "b", dist2 := 1, rank := 1,
       source_x := 0, source_y := 0, target_x := 1, target_y := 0 },
     { source := "b", target := "a", dist2 := 1, rank := 1,
       source_x := 1, source_y := 0, target_x := 0, target_y := 0 }]
    (fun z : ℤ => (z : ℝ)) (by decide)
    { source := "a", target := "b", dist2 := 1, rank := 1,
      source_x := 0, source_y := 0, target_x := 1, target_y := 0 }
    (by decide)

/-- C4 counterexample: when two input images share the same (base)
filename, edges from *different* points share one source identifier, so
the rank sequence for that identifier is not the dense sequence
`1, …, L`.  With positions `(0,0), (1,0)`, both filenames `a`, and
`k = 1`, the two emitted edges both carry `source = "a"` and rank 1, so
the rank list is `[1, 1]`, not `[1, 2]`. -/
theorem c4_rank_counterexample :
    ¬ (∀ es : List (Edge ℤ),
        extract_network_data ([[0,0],[1,0]] : List (List ℤ)) ["a", "a"] 1
            = some es →
        (es.filter (fun e => e.source = "a")).map Edge.rank
          = (List.range
              (es.filter (fun e => e.source = "a")).length).map
              (fun j => j + 1)) := by
  intro h
  have h2 := h
    [{ source := "a", target := "a", dist2 := 1, rank := 1,
       source_x := 0, source_y := 0, target_x := 1, target_y := 0 },
     { source := "a", target := "a", dist2 := 1, rank := 1,
       source_x := 1, source_y := 0, target_x := 0, target_y := 0 }]
    (by decide)
  exact absurd h2 (by decide)

/-- C4 amended: provided the (truncated) base filenames are pairwise
distinct, the edges sharing any fixed `source` identifier are exactly
one point's block, emitted with rank values forming the dense sequence
`1, …, L` in emission order, with (real-valued) distance non-decreasing
and weight non-increasing as rank increases; `toR` is the monotone
interpretation of the exact coordinates in `ℝ`. -/
theorem c4_rank_monotone_amended {α : Type} [LinearOrderedCommRing α]
    (positions : List (List α)) (fns : List String) (k : ℤ)
    (es : List (Edge α)) (s : String) (toR : α → ℝ) (hmono : Monotone toR)
    (hex : extract_network_data positions fns k = some es)
    (hbn : ((truncFilenames positions fns).map basename).Nodup) :
    (es.filter (fun e => e.source = s)).map Edge.rank
        = (List.range ((es.filter (fun e => e.source = s)).length)).map
            (fun j => j + 1)
      ∧ List.Sorted (fun a b => a ≤ b)
          ((es.filter (fun e => e.source = s)).map (Edge.distance toR))
      ∧ List.Sorted (fun a b => b ≤ a)
          ((es.filter (fun e => e.source = s)).map (Edge.weight toR)) := by
  set ps := truncPositions positions fns with hps
  set fs := truncFilenames positions fns with hfs
  have hlen : ps.length = fs.length := by
    rw [hps, hfs, truncPositions_length, truncFilenames_length]
  have hkey : es.filter (fun e => e.source = s) = []
      ∨ ∃ i0, i0 < ps.length
          ∧ es.filter (fun e => e.source = s)
              = edgesForPoint ps fs i0
                  ((find_nearest_neighbors ps k).getD i0 []) := by
    rw [es_of_extract_eq_some hex, filter_flatMap_blocks]
    by_cases hmem : s ∈ fs.map basename
    · right
      obtain ⟨i0, hi0m, hs⟩ := List.mem_iff_getElem.1 hmem
      have hi0 : i0 < fs.length := by simpa using hi0m
      rw [List.getElem_map] at hs
      refine ⟨i0, by rw [hlen]; exact hi0, ?_⟩
      rw [flatten_map_eq_single _ hi0 ?_]
      · apply List.filter_eq_self.2
        intro e hee
        have hse := source_of_mem_edgesForPoint hee
        rw [List.getD_eq_getElem _ _ hi0] at hse
        simp [hse, hs]
      · intro i hi hne
        apply List.filter_eq_nil_iff.2
        intro e hee
        have hse := source_of_mem_edgesForPoint hee
        rw [List.getD_eq_getElem _ _ hi] at hse
        simp only [decide_eq_true_eq]
        intro heq
        rw [hse] at heq
        have hinj : i = i0 :=
          (@List.Nodup.getElem_inj_iff _ _ hbn i (by simpa using hi)
              i0 (by simpa using hi0)).1
            (by rw [List.getElem_map, List.getElem_map, heq, hs])
        exact hne hinj
    · left
      rw [List.flatten_eq_nil_iff]
      intro l hl
      rcases List.mem_map.1 hl with ⟨i, hi, rfl⟩
      have hilt : i < fs.length := by
        rw [hlen] at *
        exact List.mem_range.1 hi
      apply List.filter_eq_nil_iff.2
      intro e hee
      have hse := source_of_mem_edgesForPoint hee
      rw [List.getD_eq_getElem _ _ hilt] at hse
      simp only [decide_eq_true_eq]
      intro heq
      apply hmem
      rw [← heq, hse]
      exact List.mem_map.2 ⟨fs.get ⟨i, hilt⟩, List.get_mem _ _ _, rfl⟩
  rcases hkey with hnil | ⟨i0, hi0p, hblock⟩
  · rw [hnil]
    exact ⟨by simp, List.sorted_nil, List.sorted_nil⟩
  · have hsorted := find_nearest_neighbors_sorted (k := k) hi0p
    refine ⟨?_, ?_, ?_⟩
    · rw [hblock, edgesForPoint_map_rank, length_edgesForPoint]
    · rw [hblock]
      have h1 : (edgesForPoint ps fs i0
            ((find_nearest_neighbors ps k).getD i0 [])).map
              (Edge.distance toR)
          = ((find_nearest_neighbors ps k).getD i0 []).map
              (fun x => Real.sqrt (toR (distRow ps i0 x))) := by
        have h2 : (edgesForPoint ps fs i0
              ((find_nearest_neighbors ps k).getD i0 [])).map
                (Edge.distance toR)
            = ((edgesForPoint ps fs i0
                ((find_nearest_neighbors ps k).getD i0 [])).map
                  Edge.dist2).map (fun x => Real.sqrt (toR x)) := by
          rw [List.map_map]; rfl
        rw [h2, edgesForPoint_map_dist2, List.map_map]; rfl
      rw [h1]
      apply List.pairwise_map.2
      apply hsorted.imp
      intro a b hab
      apply Real.sqrt_le_sqrt
      apply hmono
      rcases hab with h | ⟨h, -⟩
      · exact le_of_lt h
      · exact le_of_eq h
    · rw [hblock]
      have h1 : (edgesForPoint ps fs i0
            ((find_nearest_neighbors ps k).getD i0 [])).map
              (Edge.weight toR)
          = ((find_nearest_neighbors ps k).getD i0 []).map
              (fun x => 1 / (Real.sqrt (toR (distRow ps i0 x)) + 1e-5)) := by
        have h2 : (edgesForPoint ps fs i0
              ((find_nearest_neighbors ps k).getD i0 [])).map
                (Edge.weight toR)
            = ((edgesForPoint ps fs i0
                ((find_nearest_neighbors ps k).getD i0 [])).map
                  Edge.dist2).map
                (fun x => 1 / (Real.sqrt (toR x) + 1e-5)) := by
          rw [List.map_map]; rfl
        rw [h2, edgesForPoint_map_dist2, List.map_map]; rfl
      rw [h1]
      apply List.pairwise_map.2
      apply hsorted.imp
      intro a b hab
      have hd : toR (distRow ps i0 a) ≤ toR (distRow ps i0 b) := by
        apply hmono
        rcases hab with h | ⟨h, -⟩
        · exact le_of_lt h
        · exact le_of_eq h
      apply one_div_le_one_div_of_le
      · positivity
      · exact add_le_add_right (Real.sqrt_le_sqrt hd) _

/-- Closed witness for `c4_rank_monotone_amended` on a 3-point run with
distinct filenames, `k = 2`, source identifier `a`. -/
theorem c4_rank_monotone_amended_witness :
    (let esc : List (Edge ℤ) :=
      [{ source := "a", target := "b", dist2 := 1, rank := 1,
         source_x := 0, source_y := 0, target_x := 1, target_y := 0 },
       { source := "a", target := "c", dist2 := 4, rank := 2,
         source_x := 0, source_y := 0, target_x := 0, target_y := 2 },
       { source := "b", target := "a", dist2 := 1, rank := 1,
         source_x := 1, source_y := 0, target_x := 0, target_y := 0 },
       { source := "b", target := "c", dist2 := 5, rank := 2,
         source_x := 1, source_y := 0, target_x := 0, target_y := 2 },
       { source := "c", target := "a", dist2 := 4, rank := 1,
         source_x := 0, source_y := 2, target_x := 0, target_y := 0 },
       { source := "c", target := "b", dist2 := 5, rank := 2,
         source_x := 0, source_y := 2, target_x := 1, target_y := 0 }]
     (esc.filter (fun e => e.source = "a")).map Edge.rank
        = (List.range
            ((esc.filter (fun e => e.source = "a")).length)).map
            (fun j => j + 1)
      ∧ List.Sorted (fun a b => a ≤ b)
          ((esc.filter (fun e => e.source = "a")).map
            (Edge.distance (fun z : ℤ => (z : ℝ))))
      ∧ List.Sorted (fun a b => b ≤ a)
          ((esc.filter (fun e => e.source = "a")).map
            (Edge.weight (fun z : ℤ => (z : ℝ))))) :=
  c4_rank_monotone_amended ([[0,0],[1,0],[0,2]] : List (List ℤ))
    ["a", "b", "c"] 2
    [{ source := "a", target := "b", dist2 := 1, rank := 1,
       source_x := 0, source_y := 0, target_x := 1, target_y := 0 },
     { source := "a", target := "c", dist2 := 4, rank := 2,
       source_x := 0, source_y := 0, target_x := 0, target_y := 2 },
     { source := "b", target := "a", dist2 := 1, rank := 1,
       source_x := 1, source_y := 0, target_x := 0, target_y := 0 },
     { source := "b", target := "c", dist2 := 5, rank := 2,
       source_x := 1, source_y := 0, target_x := 0, target_y := 2 },
     { source := "c", target := "a", dist2 := 4, rank := 1,
       source_x := 0, source_y := 2, target_x := 0, target_y := 0 },
     { source := "c", target := "b", dist2 := 5, rank := 2,
       source_x := 0, source_y := 2, target_x := 1, target_y := 0 }]
    "a" (fun z : ℤ => (z : ℝ)) Int.cast_mono (by decide) (by decide)

/-! ### Header facts -/

lemma sortStr_sorted (l : List String) : List.Sorted strLe (sortStr l) :=
  List.sorted_insertionSort strLe l

lemma mem_sortStr {c : String} {l : List String} : c ∈ sortStr l ↔ c ∈ l :=
  (List.perm_insertionSort strLe l).mem_iff

lemma sortStr_nodup {l : List String} (h : l.Nodup) : (sortStr l).Nodup :=
  (List.perm_insertionSort strLe l).symm.nodup h

lemma dedup_flatten_const_edgeKeys {α : Type} [LinearOrderedCommRing α]
    (rows : List (Edge α)) (h : rows ≠ []) :
    ((rows.map (fun _ => edgeKeys)).flatten).dedup = edgeKeys := by
  induction rows with
  | nil => exact absurd rfl h
  | cons e t ih =>
    cases t with
    | nil =>
      show ((edgeKeys ++ []).dedup) = edgeKeys
      rw [List.append_nil]
      exact List.Nodup.dedup (by decide)
    | cons e2 t2 =>
      rw [List.map_cons, List.flatten_cons, List.dedup_append,
        ih (by simp)]
      decide

lemma write_csv_eq {α : Type} [LinearOrderedCommRing α]
    (rows : List (Edge α)) (h : rows ≠ []) :
    write_csv rows
      = some (essentialCols ++
          sortStr (edgeKeys.filter
            (fun c => !(essentialCols.contains c)))) := by
  unfold write_csv
  rw [if_neg (by simpa [List.isEmpty_iff] using h),
    dedup_flatten_const_edgeKeys rows h]

/-- C8: the edge file's header begins with
`source, target, weight, distance, rank` followed by the remaining
columns in sorted order (concretely the four coordinate columns in
lexicographic order), and the node file's header begins with `id`
followed by all remaining column names, sorted lexicographically and
without duplicates.  Both headers are computed by pure functions of the
rows, so two runs on identical input produce identical header rows. -/
theorem c8_column_headers :
    (∀ (α : Type) [LinearOrderedCommRing α] (rows : List (Edge α)),
        rows ≠ [] →
        write_csv rows
          = some ["source", "target", "weight", "distance", "rank",
                  "source_x", "source_y", "target_x", "target_y"])
    ∧ (∀ (α : Type) [LinearOrderedCommRing α] (edges : List (Edge α))
          (metadata : List (String × Row α)) (it : Bool)
          (th og : String → String) (hdr : List String)
          (nrows : List (Row α)),
        create_node_csv edges metadata it th og = some (hdr, nrows) →
        hdr.head? = some "id"
          ∧ List.Sorted strLe hdr.tail
          ∧ "id" ∉ hdr.tail
          ∧ hdr.Nodup
          ∧ ∀ c, c ∈ hdr ↔
              (c = "id" ∨ ∃ r ∈ nrows, c ∈ r.map Prod.fst)) := by
  constructor
  · intro α instα rows h
    rw [write_csv_eq rows h]
    decide
  · intro α instα edges metadata it th og hdr nrows h
    unfold create_node_csv at h
    by_cases he : edges.isEmpty
    · rw [if_pos he] at h
      exact absurd h (by simp)
    · rw [if_neg he] at h
      have h2 := Option.some.inj h
      rw [Prod.ext_iff] at h2
      obtain ⟨hh, hn⟩ := h2
      subst hh
      subst hn
      set nodes := (collectNodes it th og edges).map (mergeMeta metadata)
        with hnodes
      set allkeys := ((nodes.map (fun n => n.2.map Prod.fst)).flatten).dedup
        with hallkeys
      set ks := sortStr (allkeys.filter (fun c => !(c == "id"))) with hks
      have hks_mem : ∀ c : String,
          c ∈ ks ↔ (c ≠ "id" ∧ ∃ n ∈ nodes, c ∈ n.2.map Prod.fst) := by
        intro c
        rw [hks, mem_sortStr, List.mem_filter, hallkeys, List.mem_dedup,
          List.mem_flatten]
        constructor
        · rintro ⟨⟨l, hl, hcl⟩, hcne⟩
          obtain ⟨n, hnm, rfl⟩ := List.mem_map.1 hl
          refine ⟨by simpa using hcne, n, hnm, hcl⟩
        · rintro ⟨hcne, n, hnm, hcl⟩
          exact ⟨⟨n.2.map Prod.fst, List.mem_map.2 ⟨n, hnm, rfl⟩, hcl⟩,
            by simpa using hcne⟩
      refine ⟨rfl, ?_, ?_, ?_, ?_⟩
      · show List.Sorted strLe ks
        exact sortStr_sorted _
      · show "id" ∉ ks
        intro hmem
        exact ((hks_mem "id").1 hmem).1 rfl
      · refine List.nodup_cons.2 ⟨?_, ?_⟩
        · intro hmem
          exact ((hks_mem "id").1 hmem).1 rfl
        · exact sortStr_nodup ((List.nodup_dedup _).filter _)
      · intro c
        rw [List.mem_cons, hks_mem c]
        constructor
        · rintro (rfl | ⟨hne, n, hnm, hcl⟩)
          · exact Or.inl rfl
          · exact Or.inr ⟨n.2, List.mem_map.2 ⟨n, hnm, rfl⟩, hcl⟩
        · rintro (rfl | ⟨r, hrm, hcl⟩)
          · exact Or.inl rfl
          · by_cases hc : c = "id"
            · exact Or.inl hc
            · obtain ⟨n, hnm, rfl⟩ := List.mem_map.1 hrm
              exact Or.inr ⟨hc, n, hnm, hcl⟩

/-- Closed witness for `c8_column_headers` on a one-edge input with one
metadata attribute (`year`). -/
theorem c8_column_headers_witness :
    write_csv
        ([{ source := "a", target := "b", dist2 := 1, rank := 1,
            source_x := 0, source_y := 0, target_x := 1, target_y := 0 }] :
          List (Edge ℤ))
        = some ["source", "target", "weight", "distance", "rank",
                "source_x", "source_y", "target_x", "target_y"]
      ∧ (["id", "x", "y"].head? = some "id"
          ∧ List.Sorted strLe ["id", "x", "y"].tail
          ∧ "id" ∉ ["id", "x", "y"].tail
          ∧ ["id", "x", "y"].Nodup) :=
  ⟨c8_column_headers.1 ℤ _ (by decide),
   (by
      have h := c8_column_headers.2 ℤ
        [{ source := "a", target := "b", dist2 := 1, rank := 1,
           source_x := 0, source_y := 0, target_x := 1, target_y := 0 }]
        [] false (fun s => s) (fun s => s) ["id", "x", "y"]
        [[("id", Value.s "a"), ("x", Value.q 0), ("y", Value.q 0)],
         [("id", Value.s "b"), ("x", Value.q 1), ("y", Value.q 0)]]
        (by decide)
      exact ⟨h.1, h.2.1, h.2.2.1, h.2.2.2.1⟩)⟩

/-! ### Node-table facts -/

section NodeFacts

variable {α : Type}

lemma addNode_guard_iff {acc : List (String × Row α)} {nid : String} :
    (acc.any (fun n => n.1 == nid) = true) ↔ nid ∈ acc.map Prod.fst := by
  rw [List.any_eq_true]
  constructor
  · rintro ⟨n, hn, hb⟩
    rw [beq_iff_eq] at hb
    exact hb ▸ List.mem_map.2 ⟨n, hn, rfl⟩
  · intro hmem
    obtain ⟨n, hn, rfl⟩ := List.mem_map.1 hmem
    exact ⟨n, hn, beq_iff_eq.2 rfl⟩

lemma addNode_keys (it : Bool) (th og : String → String)
    (acc : List (String × Row α)) (nid : String) (x y : α) :
    (addNode it th og acc nid x y).map Prod.fst
      = if nid ∈ acc.map Prod.fst then acc.map Prod.fst
        else acc.map Prod.fst ++ [nid] := by
  unfold addNode
  by_cases h : acc.any (fun n => n.1 == nid)
  · rw [if_pos h, if_pos (addNode_guard_iff.1 h)]
  · rw [if_neg h, if_neg (fun hm => h (addNode_guard_iff.2 hm)),
      List.map_append]
    rfl

lemma collectNodes_keys_aux (it : Bool) (th og : String → String) :
    ∀ (edges : List (Edge α)) (acc : List (String × Row α)),
    ((edges.foldl
        (fun acc e =>
          addNode it th og
            (addNode it th og acc e.source e.source_x e.source_y)
            e.target e.target_x e.target_y) acc).map Prod.fst)
      = (edges.flatMap (fun e => [e.source, e.target])).foldl
          (fun seen s => if s ∈ seen then seen else seen ++ [s])
          (acc.map Prod.fst)
  | [], acc => rfl
  | e :: t, acc => by
    rw [List.foldl_cons, collectNodes_keys_aux it th og t _,
      List.flatMap_cons, List.foldl_append]
    congr 1
    rw [addNode_keys, addNode_keys]
    rfl

lemma foldl_seenInsert_nodup :
    ∀ (l : List String) (seen : List String), seen.Nodup →
    (l.foldl (fun seen s => if s ∈ seen then seen else seen ++ [s])
      seen).Nodup
  | [], _, h => h
  | s :: t, seen, h => by
    rw [List.foldl_cons]
    show (t.foldl _ (if s ∈ seen then seen else seen ++ [s])).Nodup
    by_cases hs : s ∈ seen
    · rw [if_pos hs]
      exact foldl_seenInsert_nodup t seen h
    · rw [if_neg hs]
      refine foldl_seenInsert_nodup t _ ?_
      simp [List.nodup_append, h, hs]

lemma collectNodes_keys (it : Bool) (th og : String → String)
    (edges : List (Edge α)) :
    (collectNodes it th og edges).map Prod.fst
      = firstDedup (edges.flatMap (fun e => [e.source, e.target])) :=
  collectNodes_keys_aux it th og edges []

lemma collectNodes_keys_nodup (it : Bool) (th og : String → String)
    (edges : List (Edge α)) :
    ((collectNodes it th og edges).map Prod.fst).Nodup := by
  rw [collectNodes_keys]
  exact foldl_seenInsert_nodup _ [] List.nodup_nil

lemma alookup_eq_none_iff {acc : List (String × Row α)} {nid : String} :
    alookup acc nid = none ↔ nid ∉ acc.map Prod.fst := by
  unfold alookup
  rw [Option.map_eq_none', List.find?_eq_none]
  constructor
  · intro h hmem
    obtain ⟨n, hn, rfl⟩ := List.mem_map.1 hmem
    exact h n hn (beq_iff_eq.2 rfl)
  · intro h n hn hb
    rw [beq_iff_eq] at hb
    exact h (hb ▸ List.mem_map.2 ⟨n, hn, rfl⟩)

lemma alookup_addNode_preserved (it : Bool) (th og : String → String)
    {acc : List (String × Row α)} {nid k : String} {x y : α}
    (h : (alookup acc nid).isSome = true ∨ nid ≠ k) :
    alookup (addNode it th og acc k x y) nid = alookup acc nid := by
  unfold addNode
  by_cases hg : acc.any (fun n => n.1 == k)
  · rw [if_pos hg]
  · rw [if_neg hg]
    show (List.find? (fun n => n.1 == nid) (acc ++ _)).map _
      = alookup acc nid
    rw [List.find?_append]
    cases hfind : acc.find? (fun n => n.1 == nid) with
    | some v => simp [alookup, hfind, Option.or]
    | none =>
      rcases h with hs | hne
      · rw [show alookup acc nid = none from by simp [alookup, hfind]] at hs
        exact absurd hs (by simp)
      · have hne2 : (k == nid) = false := by
          simpa using fun hh => hne hh.symm
        simp [alookup, hfind, Option.or, List.find?_cons, hne2]

lemma alookup_addNode_new (it : Bool) (th og : String → String)
    {acc : List (String × Row α)} {k : String} {x y : α}
    (h : alookup acc k = none) :
    alookup (addNode it th og acc k x y) k
      = some (seedRow it th og k x y) := by
  have hfind : acc.find? (fun n => n.1 == k) = none :=
    Option.map_eq_none'.1 h
  unfold addNode
  rw [if_neg (fun hg => by
    rw [alookup_eq_none_iff] at h
    exact h (addNode_guard_iff.1 hg))]
  show (List.find? (fun n => n.1 == k) (acc ++ _)).map _ = _
  rw [List.find?_append, hfind]
  simp [List.find?_cons, Option.or]

end NodeFacts

section NodeFacts2

variable {α : Type}

/-- The lookup specification of the node-seeding fold: the row stored
for `nid` is the row already in the accumulator if any, and otherwise
the seed row built from the first occurrence of `nid` in the edges
(source checked before target). -/
lemma collectNodes_alookup_aux (it : Bool) (th og : String → String) :
    ∀ (edges : List (Edge α)) (acc : List (String × Row α)) (nid : String),
    alookup (edges.foldl
        (fun acc e =>
          addNode it th og
            (addNode it th og acc e.source e.source_x e.source_y)
            e.target e.target_x e.target_y) acc) nid
      = (alookup acc nid).or ((firstCoords edges nid).map
          (fun xy => seedRow it th og nid xy.1 xy.2))
  | [], acc, nid => by
    show alookup acc nid = (alookup acc nid).or none
    rw [Option.or_none]
  | e :: t, acc, nid => by
    rw [List.foldl_cons, collectNodes_alookup_aux it th og t _ nid]
    cases hacc : alookup acc nid with
    | some r =>
      have h1 : alookup
          (addNode it th og acc e.source e.source_x e.source_y) nid
          = some r := by
        rw [alookup_addNode_preserved it th og
          (Or.inl (by rw [hacc]; rfl)), hacc]
      have h2 : alookup
          (addNode it th og
            (addNode it th og acc e.source e.source_x e.source_y)
            e.target e.target_x e.target_y) nid = some r := by
        rw [alookup_addNode_preserved it th og
          (Or.inl (by rw [h1]; rfl)), h1]
      rw [h2]
      simp [Option.or]
    | none =>
      by_cases hsrc : e.source = nid
      · subst hsrc
        have h1 : alookup
            (addNode it th og acc e.source e.source_x e.source_y) e.source
            = some (seedRow it th og e.source e.source_x e.source_y) :=
          alookup_addNode_new it th og hacc
        have h2 : alookup
            (addNode it th og
              (addNode it th og acc e.source e.source_x e.source_y)
              e.target e.target_x e.target_y) e.source
            = some (seedRow it th og e.source e.source_x e.source_y) := by
          rw [alookup_addNode_preserved it th og
            (Or.inl (by rw [h1]; rfl)), h1]
        rw [h2]
        have hfc : firstCoords (e :: t) e.source
            = some (e.source_x, e.source_y) := by
          show (if e.source = e.source then _ else _) = _
          rw [if_pos rfl]
        rw [hfc]
        simp [Option.or]
      · by_cases htgt : e.target = nid
        · subst htgt
          have h1 : alookup
              (addNode it th og acc e.source e.source_x e.source_y)
              e.target = none := by
            rw [alookup_addNode_preserved it th og
              (Or.inr (fun hh => hsrc hh.symm)), hacc]
          have h2 : alookup
              (addNode it th og
                (addNode it th og acc e.source e.source_x e.source_y)
                e.target e.target_x e.target_y) e.target
              = some (seedRow it th og e.target e.target_x e.target_y) :=
            alookup_addNode_new it th og h1
          rw [h2]
          have hfc : firstCoords (e :: t) e.target
              = some (e.target_x, e.target_y) := by
            show (if e.source = e.target then _ else _) = _
            rw [if_neg hsrc, if_pos rfl]
          rw [hfc]
          simp [Option.or]
        · have h1 : alookup
              (addNode it th og acc e.source e.source_x e.source_y) nid
              = none := by
            rw [alookup_addNode_preserved it th og
              (Or.inr (fun hh => hsrc hh.symm)), hacc]
          have h2 : alookup
              (addNode it th og
                (addNode it th og acc e.source e.source_x e.source_y)
                e.target e.target_x e.target_y) nid = none := by
            rw [alookup_addNode_preserved it th og
              (Or.inr (fun hh => htgt hh.symm)), h1]
          rw [h2]
          have hfc : firstCoords (e :: t) nid = firstCoords t nid := by
            show (if e.source = nid then _ else _) = _
            rw [if_neg hsrc, if_neg htgt]
          rw [hfc]

lemma collectNodes_alookup (it : Bool) (th og : String → String)
    (edges : List (Edge α)) (nid : String) :
    alookup (collectNodes it th og edges) nid
      = (firstCoords edges nid).map
          (fun xy => seedRow it th og nid xy.1 xy.2) := by
  unfold collectNodes
  rw [collectNodes_alookup_aux it th og edges [] nid]
  rfl

lemma alookup_of_mem_of_nodup {l : List (String × Row α)}
    {n : String × Row α} (hmem : n ∈ l)
    (hnd : (l.map Prod.fst).Nodup) :
    alookup l n.1 = some n.2 := by
  induction l with
  | nil => cases hmem
  | cons h0 t ih =>
    rcases List.mem_cons.1 hmem with rfl | hmem2
    · show (List.find? _ (n :: t)).map _ = some n.2
      rw [List.find?_cons]
      simp
    · show (List.find? _ (h0 :: t)).map _ = some n.2
      rw [List.find?_cons]
      rw [List.map_cons, List.nodup_cons] at hnd
      have hfe : (h0.1 == n.1) = false := by
        rw [beq_eq_false_iff_ne]
        intro heq
        exact hnd.1 (heq ▸ List.mem_map.2 ⟨n, hmem2, rfl⟩)
      rw [hfe]
      exact ih hmem2 hnd.2

lemma dget_seedRow_x (it : Bool) (th og : String → String) (nid : String)
    (x y : α) : dget (seedRow it th og nid x y) "x" = some (Value.q x) := by
  cases it <;> rfl

lemma dget_seedRow_y (it : Bool) (th og : String → String) (nid : String)
    (x y : α) : dget (seedRow it th og nid x y) "y" = some (Value.q y) := by
  cases it <;> rfl

end NodeFacts2

section NodeFacts3

variable {α : Type}

lemma find?_map_overwrite_ne {d : Row α} {k k' : String} {v : Value α}
    (h : k ≠ k') :
    (d.map (fun kv => if kv.1 == k then (k, v) else kv)).find?
        (fun kv => kv.1 == k')
      = d.find? (fun kv => kv.1 == k') := by
  induction d with
  | nil => rfl
  | cons kv t ih =>
    rw [List.map_cons, List.find?_cons, List.find?_cons]
    by_cases hk : (kv.1 == k) = true
    · rw [if_pos hk]
      have hkv : kv.1 = k := beq_iff_eq.1 hk
      have h1 : ((k, v).1 == k') = false := beq_eq_false_iff_ne.2 h
      have h2 : (kv.1 == k') = false := by
        rw [hkv]; exact beq_eq_false_iff_ne.2 h
      rw [h1, h2]
      exact ih
    · rw [if_neg hk]
      by_cases hk' : (kv.1 == k') = true
      · rw [hk']
      · have hf : (kv.1 == k') = false := by simpa using hk'
        rw [hf]
        exact ih

lemma dget_dinsert_ne {d : Row α} {k k' : String} {v : Value α}
    (h : k ≠ k') : dget (dinsert d k v) k' = dget d k' := by
  unfold dinsert
  by_cases hmem : d.any (fun kv => kv.1 == k)
  · rw [if_pos hmem]
    show ((d.map _).find? _).map _ = (d.find? _).map _
    rw [find?_map_overwrite_ne h]
  · rw [if_neg hmem]
    show ((d ++ _).find? _).map _ = (d.find? _).map _
    rw [List.find?_append]
    have hone : List.find? (fun kv => kv.1 == k') [(k, v)] = none := by
      rw [List.find?_cons, beq_eq_false_iff_ne.2 h]
      rfl
    rw [hone, Option.or_none]

lemma mergeMeta_fst (metadata : List (String × Row α))
    (n : String × Row α) : (mergeMeta metadata n).1 = n.1 := by
  unfold mergeMeta
  cases metadata.find? (fun kv => kv.1 == n.1) <;> rfl

lemma dget_foldMeta {c : String} (hc : c = "x" ∨ c = "y") :
    ∀ (mrow : Row α),
    (∀ kv ∈ mrow, kv.1 ≠ "x" ∧ kv.1 ≠ "y") →
    ∀ d : Row α,
    dget (mrow.foldl
        (fun d m => if m.1 == "filename" then d else dinsert d m.1 m.2)
        d) c
      = dget d c
  | [], _, d => rfl
  | m :: t, hrow, d => by
    rw [List.foldl_cons]
    have hrec := dget_foldMeta hc t
      (fun kv hkv => hrow kv (List.mem_cons_of_mem _ hkv))
    by_cases hf : (m.1 == "filename") = true
    · rw [if_pos hf]
      exact hrec d
    · rw [if_neg hf, hrec (dinsert d m.1 m.2)]
      apply dget_dinsert_ne
      rcases hc with rfl | rfl
      · exact (hrow m (List.mem_cons_self _ _)).1
      · exact (hrow m (List.mem_cons_self _ _)).2

lemma dget_mergeMeta_xy {metadata : List (String × Row α)}
    {n : String × Row α}
    (hmeta : ∀ md ∈ metadata, ∀ kv ∈ md.2, kv.1 ≠ "x" ∧ kv.1 ≠ "y")
    {c : String} (hc : c = "x" ∨ c = "y") :
    dget (mergeMeta metadata n).2 c = dget n.2 c := by
  unfold mergeMeta
  cases hfind : metadata.find? (fun kv => kv.1 == n.1) with
  | none => rfl
  | some md =>
    exact dget_foldMeta hc md.2
      (hmeta md (List.mem_of_find?_eq_some hfind)) n.2

end NodeFacts3

/-- C7 counterexample: a metadata attribute literally named `x` (which
only `filename` is protected against) overwrites the seeded coordinate.
With the single edge `a → b` at source coordinates `(0, 0)` and metadata
`{"a": {"x": 99}}`, node `a`'s record carries `x = 99` even though the
first occurrence of `a` in the edges has `x = 0`, refuting the claim
that the output record's coordinates are always those of the
identifier's first occurrence. -/
theorem c7_metadata_clobbers_counterexample :
    ¬ (∀ (edges : List (Edge ℤ)) (metadata : List (String × Row ℤ))
          (hdr : List String) (nrows : List (Row ℤ)),
        create_node_csv edges metadata false (fun s => s) (fun s => s)
            = some (hdr, nrows) →
        ∀ r ∈ nrows, ∀ nid, dget r "id" = some (Value.s nid) →
          dget r "x"
            = (firstCoords edges nid).map (fun xy => Value.q xy.1)) := by
  intro h
  have h2 := h
    [{ source := "a", target := "b", dist2 := 1, rank := 1,
       source_x := 0, source_y := 0, target_x := 1, target_y := 0 }]
    [("a", [("x", Value.q 99)])]
    ["id", "x", "y"]
    [[("id", Value.s "a"), ("x", Value.q 99), ("y", Value.q 0)],
     [("id", Value.s "b"), ("x", Value.q 1), ("y", Value.q 0)]]
    (by decide)
    [("id", Value.s "a"), ("x", Value.q 99), ("y", Value.q 0)]
    (by decide) "a" (by decide)
  exact absurd h2 (by decide)

/-- C7 amended: for every edge list given to `create_node_csv`, each
identifier appearing as any edge's source or target yields exactly one
node record, in first-occurrence order (the key list is the
first-occurrence deduplication of the `source, target` stream, without
duplicates); and — provided no metadata entry carries a key literally
named `x` or `y` (only `filename` is skipped by the code, so such keys
would overwrite the seeded position) — each record's coordinates are
those of the identifier's first occurrence when scanning edges in
emission order, source before target. -/
theorem c7_node_identity_amended {α : Type} [LinearOrderedCommRing α]
    (edges : List (Edge α)) (metadata : List (String × Row α))
    (it : Bool) (th og : String → String) (hdr : List String)
    (nrows : List (Row α))
    (h : create_node_csv edges metadata it th og = some (hdr, nrows))
    (hmeta : ∀ md ∈ metadata, ∀ kv ∈ md.2, kv.1 ≠ "x" ∧ kv.1 ≠ "y") :
    nrows = ((collectNodes it th og edges).map (mergeMeta metadata)).map
        (fun n => n.2)
      ∧ (((collectNodes it th og edges).map (mergeMeta metadata)).map
            Prod.fst)
          = (collectNodes it th og edges).map Prod.fst
      ∧ ((collectNodes it th og edges).map Prod.fst)
          = firstDedup (edges.flatMap (fun e => [e.source, e.target]))
      ∧ ((collectNodes it th og edges).map Prod.fst).Nodup
      ∧ ∀ n ∈ (collectNodes it th og edges).map (mergeMeta metadata),
          dget n.2 "x"
              = (firstCoords edges n.1).map (fun xy => Value.q xy.1)
            ∧ dget n.2 "y"
              = (firstCoords edges n.1).map (fun xy => Value.q xy.2) := by
  refine ⟨?_, ?_, collectNodes_keys it th og edges,
    collectNodes_keys_nodup it th og edges, ?_⟩
  · unfold create_node_csv at h
    by_cases he : edges.isEmpty
    · rw [if_pos he] at h
      exact absurd h (by simp)
    · rw [if_neg he] at h
      have h2 := Option.some.inj h
      rw [Prod.ext_iff] at h2
      exact h2.2.symm
  · rw [List.map_map]
    apply List.map_congr_left
    intro n hn
    exact mergeMeta_fst metadata n
  · intro n hn
    obtain ⟨n0, hn0, rfl⟩ := List.mem_map.1 hn
    have hal : alookup (collectNodes it th og edges) n0.1 = some n0.2 :=
      alookup_of_mem_of_nodup hn0 (collectNodes_keys_nodup it th og edges)
    rw [collectNodes_alookup] at hal
    obtain ⟨xy, hfc, hseed⟩ := Option.map_eq_some'.1 hal
    rw [mergeMeta_fst, hfc]
    constructor
    · rw [dget_mergeMeta_xy hmeta (Or.inl rfl), ← hseed, dget_seedRow_x]
      rfl
    · rw [dget_mergeMeta_xy hmeta (Or.inr rfl), ← hseed, dget_seedRow_y]
      rfl

/-- Closed witness for `c7_node_identity_amended`: one edge `a → b`,
metadata for `a` with a harmless attribute (`year`). -/
theorem c7_node_identity_amended_witness :
    ([[("id", Value.s "a"), ("x", Value.q 0), ("y", Value.q 0),
       ("year", Value.s "1900")],
      [("id", Value.s "b"), ("x", Value.q 1), ("y", Value.q 0)]] :
        List (Row ℤ))
        = ((collectNodes false (fun s => s) (fun s => s)
              ([{ source := "a", target := "b", dist2 := 1, rank := 1,
                  source_x := 0, source_y := 0, target_x := 1,
                  target_y := 0 }] : List (Edge ℤ))).map
            (mergeMeta [("a", [("year", Value.s "1900")])])).map
            (fun n => n.2)
      ∧ ((collectNodes false (fun s => s) (fun s => s)
            ([{ source := "a", target := "b", dist2 := 1, rank := 1,
                source_x := 0, source_y := 0, target_x := 1,
                target_y := 0 }] : List (Edge ℤ))).map Prod.fst)
          = firstDedup ["a", "b"]
      ∧ ((collectNodes false (fun s => s) (fun s => s)
            ([{ source := "a", target := "b", dist2 := 1, rank := 1,
                source_x := 0, source_y := 0, target_x := 1,
                target_y := 0 }] : List (Edge ℤ))).map Prod.fst).Nodup
      ∧ (dget ([("id", Value.s "a"), ("x", Value.q 0), ("y", Value.q 0),
            ("year", Value.s "1900")] : Row ℤ) "x"
            = (firstCoords
                ([{ source := "a", target := "b", dist2 := 1, rank := 1,
                    source_x := 0, source_y := 0, target_x := 1,
                    target_y := 0 }] : List (Edge ℤ)) "a").map
                (fun xy => Value.q xy.1)
          ∧ dget ([("id", Value.s "a"), ("x", Value.q 0), ("y", Value.q 0),
              ("year", Value.s "1900")] : Row ℤ) "y"
              = (firstCoords
                  ([{ source := "a", target := "b", dist2 := 1, rank := 1,
                      source_x := 0, source_y := 0, target_x := 1,
                      target_y := 0 }] : List (Edge ℤ)) "a").map
                  (fun xy => Value.q xy.2)) := by
  have h := c7_node_identity_amended
    ([{ source := "a", target := "b", dist2 := 1, rank := 1,
        source_x := 0, source_y := 0, target_x := 1, target_y := 0 }] :
      List (Edge ℤ))
    [("a", [("year", Value.s "1900")])] false (fun s => s) (fun s => s)
    ["id", "x", "y", "year"]
    [[("id", Value.s "a"), ("x", Value.q 0), ("y", Value.q 0),
      ("year", Value.s "1900")],
     [("id", Value.s "b"), ("x", Value.q 1), ("y", Value.q 0)]]
    (by decide) (by decide)
  refine ⟨h.1, ?_, h.2.2.2.1, ?_⟩
  · rw [show firstDedup ["a", "b"]
        = firstDedup
            (([{ source := "a", target := "b", dist2 := 1, rank := 1,
                 source_x := 0, source_y := 0, target_x := 1,
                 target_y := 0 }] : List (Edge ℤ)).flatMap
              (fun e => [e.source, e.target])) from rfl]
    exact h.2.2.1
  · have h4 := h.2.2.2.2
      (("a", [("id", Value.s "a"), ("x", Value.q 0), ("y", Value.q 0),
        ("year", Value.s "1900")]) : String × Row ℤ) (by decide)
    exact h4
